import Mathlib

/-!
# Verification of the hid-recorder / hid-replay recording pipeline

A shallow embedding of the text-format codec, the BPF ring-buffer packet
reassembly, the capture-source fallback and the replay timing logic of the
hid-recorder repository (`src/main.rs`, `src/hidraw.rs`, `src/hidrecording.rs`,
`src/numberarray.rs`, `hid-replay/src/main.rs`), together with proofs of the
specified properties.

Rust strings are modelled as `List Char`; machine integers as `Nat`/`Int`
with explicit `% 2^w` where wrap-around matters.  Fallible Rust functions
returning `anyhow::Result` are modelled as `Except (List Char) _`, with the
error strings built like the source's `bail!`/`context` messages; a Rust
panic (`unwrap` of a `None`/`Err`) is likewise modelled as an `Except.error`
whose message starts with `panicked:`, since both abort the surrounding
operation.
-/

namespace HidRec

/-- Rust `&str` modelled as a list of characters. -/
abbrev Str := List Char

/-- Shorthand to turn a Lean string literal into the `List Char` model. -/
def str (s : String) : Str := s.data

/-- Rust `char::is_whitespace` (the Unicode `White_Space` property):
exactly the characters U+0009..U+000D, U+0020, U+0085, U+00A0, U+1680,
U+2000..U+200A, U+2028, U+2029, U+202F, U+205F and U+3000. -/
def isRustWs (c : Char) : Bool :=
  c = '\x09' || c = '\x0a' || c = '\x0b' || c = '\x0c' || c = '\x0d' || c = ' ' ||
  c = '\u0085' || c = '\u00a0' || c = '\u1680' ||
  c = '\u2000' || c = '\u2001' || c = '\u2002' || c = '\u2003' || c = '\u2004' ||
  c = '\u2005' || c = '\u2006' || c = '\u2007' || c = '\u2008' || c = '\u2009' ||
  c = '\u200a' || c = '\u2028' || c = '\u2029' || c = '\u202f' || c = '\u205f' ||
  c = '\u3000'

/-- Rust `str::trim_start`. -/
def trimStart (s : Str) : Str := s.dropWhile isRustWs

/-- Rust `str::trim_end`. -/
def trimEnd (s : Str) : Str := (s.reverse.dropWhile isRustWs).reverse

/-- Rust `str::trim`. -/
def trimStr (s : Str) : Str := trimEnd (trimStart s)

/-- Rust `str::split_once(c)`: split at the first occurrence of `c`,
returning the parts before and after it, or `none` if `c` does not occur. -/
def splitOnce (c : Char) : Str → Option (Str × Str)
  | [] => none
  | d :: rest =>
    if d = c then some ([], rest)
    else (splitOnce c rest).map (fun p => (d :: p.1, p.2))

/-- Rust `str::split(pred)`: split at every character satisfying `pred`,
keeping empty substrings (Rust's `split` yields one (possibly empty) item
between every two separators and at both ends). -/
def splitAll (p : Char → Bool) : Str → List Str
  | [] => [[]]
  | d :: rest =>
    match splitAll p rest with
    | [] => [[]]
    | t :: ts => if p d then [] :: t :: ts else (d :: t) :: ts

/-- Value of a hexadecimal digit character, if it is one
(Rust `char::to_digit(16)`). -/
def hexDigit? (c : Char) : Option Nat :=
  if '0' ≤ c ∧ c ≤ '9' then some (c.toNat - 48)
  else if 'a' ≤ c ∧ c ≤ 'f' then some (c.toNat - 87)
  else if 'A' ≤ c ∧ c ≤ 'F' then some (c.toNat - 70)
  else none

/-- The lowercase digit character for a value `< 16`
(as produced by Rust's `{:x}` / `{}` formatting). -/
def digitChar (n : Nat) : Char :=
  if n < 10 then Char.ofNat (48 + n) else Char.ofNat (87 + n)

/-- One step of digit-string accumulation in the given radix. -/
def dvStep (radix : Nat) (acc : Option Nat) (c : Char) : Option Nat :=
  match acc, hexDigit? c with
  | some a, some d => if d < radix then some (a * radix + d) else none
  | _, _ => none

/-- Accumulated value of a digit string in the given radix; `none` if any
character is not a digit of that radix. -/
def digitsVal (radix : Nat) (s : Str) : Option Nat :=
  s.foldl (dvStep radix) (some 0)

/-- Rust `uN::from_str_radix(s, radix)` / `str::parse::<uN>()` for an
unsigned integer type with maximum value `max`: an optional leading `+`,
then at least one digit; fails on an invalid digit or overflow. -/
def stripLeadingPlus : Str → Str
  | [] => []
  | c :: rest => if c = '+' then rest else c :: rest

def parseRadix (radix max : Nat) (s : Str) : Option Nat :=
  let s1 := stripLeadingPlus s
  if s1 = [] then none
  else match digitsVal radix s1 with
    | some v => if v ≤ max then some v else none
    | none => none

/-- `u64::MAX` (also `usize::MAX` on the 64-bit targets this tool builds for). -/
def u64Max : Nat := 18446744073709551615

/-- Rust `hex::decode`: input must have even length and consist of hex
digits; each pair of digits becomes one byte. -/
def hexDecode : Str → Option (List Nat)
  | [] => some []
  | [_] => none
  | c1 :: c2 :: rest =>
    match hexDigit? c1, hexDigit? c2, hexDecode rest with
    | some d1, some d2, some bs => some ((d1 * 16 + d2) :: bs)
    | _, _, _ => none

/-- Rust `format!("{b:02x}")` for a byte `b < 256`: exactly two lowercase
hex digits. -/
def byteHex (b : Nat) : Str := [digitChar (b / 16 % 16), digitChar (b % 16)]

/-- Decimal rendering with an explicit structural recursion bound; the
bound never runs out when it is at least the value (each recursive step
divides the value by 10). -/
def natToDecAux : Nat → Nat → Str
  | 0, n => [digitChar (n % 10)]
  | fuel + 1, n =>
    if n < 10 then [digitChar n]
    else natToDecAux fuel (n / 10) ++ [digitChar (n % 10)]

/-- Decimal rendering of a `Nat`, as Rust `format!("{n}")` for unsigned. -/
def natToDec (n : Nat) : Str := natToDecAux n n

/-- Hex rendering with an explicit structural recursion bound. -/
def natToHexAux : Nat → Nat → Str
  | 0, n => [digitChar (n % 16)]
  | fuel + 1, n =>
    if n < 16 then [digitChar n]
    else natToHexAux fuel (n / 16) ++ [digitChar (n % 16)]

/-- Lowercase hex rendering of a `Nat`, as Rust `format!("{n:x}")` for
unsigned. -/
def natToHex (n : Nat) : Str := natToHexAux n n

/-- Decimal rendering of an `Int`, as Rust `format!("{i}")` for signed. -/
def intToDec (i : Int) : Str :=
  if i < 0 then '-' :: natToDec i.natAbs else natToDec i.toNat

/-- Rust `format!("{n:06}")`: decimal, left-padded with zeros to width 6. -/
def pad6 (n : Nat) : Str :=
  let d := natToDec n
  List.replicate (6 - d.length) '0' ++ d

/-- Rust `iter().map(f).collect()` where each element is produced by a
fallible/panicking step: the whole collection succeeds only if every step
does. -/
def mapMOpt (f : α → Option β) : List α → Option (List β)
  | [] => some []
  | a :: l =>
    match f a, mapMOpt f l with
    | some b, some bs => some (b :: bs)
    | _, _ => none

/-- `Vec<String>::join(sep)` over rendered items. -/
def joinWith (sep : Str) : List Str → Str
  | [] => []
  | [t] => t
  | t :: ts => t ++ sep ++ joinWith sep ts

/-! ## The recording data model (`hid-replay/src/main.rs`, `struct Event` /
`struct Recording`) -/

/-- One captured HID input report: `struct Event { usecs: u64, bytes: Vec<u8> }`. -/
structure Event where
  usecs : Nat
  bytes : List Nat
  deriving Repr, DecidableEq

/-- A parsed recording: `struct Recording { name, ids: (u16,u16,u16), rdesc,
events }`. -/
structure Recording where
  name : Str
  bustype : Nat
  vid : Nat
  pid : Nat
  rdesc : List Nat
  events : List Event
  deriving Repr, DecidableEq

/-! ## Length-prefixed hex data (`hid-replay/src/main.rs::data_decode`,
`src/hidrecording.rs::decode_length_prefixed_data`) -/

/-- `hid-replay/src/main.rs::data_decode`: decode `"<length-decimal>
<hex bytes...>"`; the declared length must equal the decoded byte count. -/
def data_decode (s : Str) : Except Str (Nat × List Nat) :=
  match splitOnce ' ' s with
  | none => .error (str "Invalid format, expected <length> [byte, byte, ...]")
  | some (length, rest) =>
    match parseRadix 10 u64Max length with
    | none => .error (str "invalid digit found in string")
    | some n =>
      match hexDecode (rest.filter (fun c => c ≠ ' ')) with
      | none => .error (str "invalid hex data")
      | some bytes =>
        if n ≠ bytes.length then
          .error (str "Invalid data length: " ++ natToDec bytes.length
            ++ str " expected " ++ natToDec n)
        else .ok (n, bytes)

/-- `src/hidrecording.rs::decode_length_prefixed_data`: byte-for-byte the
same code as `data_decode`. -/
def decode_length_prefixed_data (s : Str) : Except Str (Nat × List Nat) :=
  match splitOnce ' ' s with
  | none => .error (str "Invalid format, expected <length> [byte, byte, ...]")
  | some (length, rest) =>
    match parseRadix 10 u64Max length with
    | none => .error (str "invalid digit found in string")
    | some n =>
      match hexDecode (rest.filter (fun c => c ≠ ' ')) with
      | none => .error (str "invalid hex data")
      | some bytes =>
        if n ≠ bytes.length then
          .error (str "Invalid data length: " ++ natToDec bytes.length
            ++ str " expected " ++ natToDec n)
        else .ok (n, bytes)

/-! ## The strict recording parser (`hid-replay/src/main.rs::parse`) -/

/-- The mutable locals of `parse` while iterating over the lines. -/
structure ParseState where
  name : Option Str
  ids : Option (Nat × Nat × Nat)
  rdesc : Option (List Nat)
  events : List Event

/-- Initial state of `parse`: `name = None`, `ids = None`, `rdesc = None`,
`events = vec![]`. -/
def initParseState : ParseState := ⟨none, none, none, []⟩

/-- One iteration of the line loop of `hid-replay/src/main.rs::parse`,
applied to an already-trimmed line.  The `u16::from_str_radix(..).unwrap()`
and `try_into().unwrap()` panics on a malformed `I:` line are modelled as
errors (either way the parse does not produce a `Recording`). -/
def parseLine (st : ParseState) (line : Str) : Except Str ParseState :=
  match splitOnce ' ' line with
  | some (p, rest) =>
    if p = str "N:" then .ok { st with name := some rest }
    else if p = str "I:" then
      match mapMOpt (parseRadix 16 65535) (splitAll (fun c => c = ' ') rest) with
      | none => .error (str "panicked: u16::from_str_radix failed")
      | some vs =>
        match vs with
        | [b, v, pr] => .ok { st with ids := some (b, v, pr) }
        | _ => .error (str "panicked: try_into [u16; 3] failed")
    else if p = str "R:" then
      match data_decode rest with
      | .error e => .error (str "Invalid report descriptor: " ++ e)
      | .ok pr => .ok { st with rdesc := some pr.2 }
    else if p = str "E:" then
      match splitOnce ' ' rest with
      | none => .error (str "Invalid event format, expected <timestamp> <length>, ...")
      | some (timestamp, rest2) =>
        match splitOnce '.' timestamp with
        | none => .error (str "Invalid timestamp format")
        | some (secs, usecs) =>
          match parseRadix 10 u64Max secs, parseRadix 10 u64Max usecs with
          | some s, some u =>
            match data_decode rest2 with
            | .error e => .error (str "Invalid event format: " ++ e)
            | .ok pr =>
              .ok { st with events := st.events ++ [⟨s * 1000000 + u, pr.2⟩] }
          | _, _ => .error (str "Invalid timestamp string")
    else .error (str "Invalid or unknown line: " ++ line)
  | none => .error (str "Invalid or unknown line: " ++ line)

/-- The line loop of `parse`, over the filtered and trimmed lines. -/
def runLines (st : ParseState) : List Str → Except Str ParseState
  | [] => .ok st
  | l :: ls =>
    match parseLine st l with
    | .error e => .error e
    | .ok st2 => runLines st2 ls

/-- `hid-replay/src/main.rs::parse`, over the list of lines of the file:
keep non-empty lines not starting with `#`, trim each, run the line loop,
then take `name.unwrap()`, `ids.unwrap()`, `rdesc.unwrap()` (panics when a
metadata line was missing, modelled as errors). -/
def parseRecording (lines : List Str) : Except Str Recording :=
  let ls := (lines.filter
      (fun l => !l.isEmpty && !(l.head? = some '#'))).map trimStr
  match runLines initParseState ls with
  | .error e => .error e
  | .ok st =>
    match st.name, st.ids, st.rdesc with
    | some n, some ids, some r => .ok ⟨n, ids.1, ids.2.1, ids.2.2, r, st.events⟩
    | _, _, _ => .error (str "panicked: unwrap of missing N:, I: or R: line")

/-! ## The recording writer (`src/main.rs`)

`src/main.rs::parse` prints the metadata lines (in the order `R:`, `N:`,
`I:`, lines 949–956) and `src/main.rs::parse_input_report` prints one `E:`
line per captured report (lines 1131–1140).  `writeRecording` collects
exactly those `Styles::Data` lines for a capture. -/

/-- The `R:`/`N:`/`I:` metadata lines followed by the `E:` event lines, as
printed by the recorder.  The `E:` timestamp is
`format!("E: {:06}.{:06} {} {}", elapsed.as_secs(), elapsed.as_micros() %
1000000, len, bytes)` where every byte is rendered as `format!("{b:02x} ")`
(note the trailing space). -/
def writeRecording (r : Recording) : List Str :=
  [str "R: " ++ natToDec r.rdesc.length ++ str " "
     ++ joinWith (str " ") (r.rdesc.map byteHex),
   str "N: " ++ r.name,
   str "I: " ++ natToHex r.bustype ++ str " " ++ natToHex r.vid ++ str " "
     ++ natToHex r.pid]
  ++ r.events.map (fun e =>
      str "E: " ++ pad6 (e.usecs / 1000000) ++ str "." ++ pad6 (e.usecs % 1000000)
        ++ str " " ++ natToDec e.bytes.length ++ str " "
        ++ (e.bytes.map (fun b => byteHex b ++ [' '])).flatten)

/-- The trimmed form of a written `E:` line: the recorder ends the line
with a space after the last hex byte, which the parser's `trim` removes,
leaving the bytes space-separated. -/
def writeELineCore (e : Event) : Str :=
  str "E: " ++ pad6 (e.usecs / 1000000) ++ str "." ++ pad6 (e.usecs % 1000000)
    ++ str " " ++ natToDec e.bytes.length ++ str " "
    ++ joinWith (str " ") (e.bytes.map byteHex)

/-! ## The replay engine (`hid-replay/src/main.rs::hid_replay`) -/

/-- The start/stop windowing of `hid_replay` (lines 132–139): when either a
start or a stop time (in milliseconds) was requested, skip events whose
timestamp is before the start time and keep events while the stop time is
unset or not yet reached.  Timestamps themselves are left unchanged. -/
def filter_events (events : List Event) (start_time stop_time : Nat) : List Event :=
  if start_time > 0 || stop_time > 0 then
    (events.dropWhile (fun e => e.usecs < start_time * 1000)).takeWhile
      (fun e => stop_time = 0 || e.usecs < stop_time * 1000)
  else events

/-- The per-event target of the replay loop (line 263):
`let target_time = Duration::from_micros(e.usecs)` — the raw recorded
timestamp, in microseconds. -/
def target_time (e : Event) : Nat := e.usecs

/-- The moment (in microseconds since the loop's `start_time = Instant::now()`)
at which the replay loop writes an event, given the elapsed time at which the
loop reached it (lines 259–275): if the target lies in the future, sleep for
`target_time - elapsed` and write, else write immediately. -/
def write_moment (e : Event) (elapsed : Nat) : Nat :=
  if target_time e > elapsed then elapsed + (target_time e - elapsed) else elapsed

/-- Modelled from the spec: the target-time formula the specification
claims the replay loop uses — the event's timestamp minus the first event's
timestamp, further reduced by the requested start-time offset (milliseconds).
Stated only for comparison against `target_time`, which is what the code
computes. -/
def spec_claimed_target_time (e first : Event) (start_time_ms : Nat) : Nat :=
  e.usecs - first.usecs - start_time_ms * 1000

/-! ## BPF ring-buffer packet reassembly
(`src/main.rs::event_handler`, lines 1273–1321, identical to
`src/hidraw.rs::bpf_event_handler`, lines 315–353) -/

/-- `PACKET_SIZE` in `src/main.rs` / `src/hidraw.rs`. -/
def PACKET_SIZE : Nat := 64

/-- `src/main.rs::event_handler` / `src/hidraw.rs::bpf_event_handler`.

The ring-buffer callback receives the raw bytes of one
`struct hid_recorder_event { packet_count: u8, packet_number: u8, length: u8,
data: [u8; 64] }` (67 bytes, `repr(C)`, no padding) and the assembly buffer.
It returns the C `int` status, the new buffer, and the completed event
emitted by this packet, if any (the source prints it as a `B:` line).

`event.length as usize - event.packet_number as usize * PACKET_SIZE` is
64-bit wrapping subtraction (release build), modelled with an explicit
`% 2^64`; the subsequent `&event.data[..size]` panics when `size > 64`,
modelled as `none`. -/
def event_handler (data : List Nat) (buffer : List Nat) :
    Option (Int × List Nat × Option (List Nat)) :=
  if data.length ≠ 67 then some (1, buffer, none)
  else
    let packet_count := data.getD 0 0
    let packet_number := data.getD 1 0
    let length := data.getD 2 0
    let payload := data.drop 3
    if length = 0 then some (1, buffer, none)
    else
      let isLast := packet_number = (packet_count + 255) % 256
      let size :=
        if isLast then (length + (2 ^ 64 - packet_number * PACKET_SIZE)) % 2 ^ 64
        else PACKET_SIZE
      if size ≤ 64 then
        let buf := (if packet_number = 0 then [] else buffer) ++ payload.take size
        some (0, buf, if isLast then some buf else none)
      else none

/-- Feeding a sequence of ring-buffer packets through `event_handler`,
starting from a given assembly buffer: returns the final buffer and the
list of completed events emitted along the way (`none` when a callback
panicked). -/
def runHandler (packets : List (List Nat)) (buffer : List Nat) :
    Option (List Nat × List (List Nat)) :=
  match packets with
  | [] => some (buffer, [])
  | d :: rest =>
    match event_handler d buffer with
    | none => none
    | some (_, buf2, em) =>
      match runHandler rest buf2 with
      | none => none
      | some (bufF, ems) => some (bufF, em.toList ++ ems)

/-! ## Kernel-tracing source selection
(`src/hidraw.rs::preload_bpf_tracer`, lines 384–442, identical in structure
to `src/main.rs::preload_bpf_tracer`, lines 1348–1393, and its caller
`read_events` / `hid_recorder`) -/

/-- The `--bpf` option (`clap::ColorChoice` reused as `BpfOption`). -/
inductive BpfOption | never | always | auto
  deriving Repr, DecidableEq

/-- `enum HidBpfSkel { None, StructOps(..), Tracing(.., u32) }`; the loaded
skeletons themselves are opaque to this development. -/
inductive HidBpfSkel | noSkel | structOps | tracing
  deriving Repr, DecidableEq

/-- `src/hidraw.rs::preload_bpf_tracer`.  The results of the two external
load attempts are passed in as parameters: `structOpsLoad` stands for
`open_skel.load()` of the struct_ops skeleton and `tracingLoad` for
`skel_builder.open()?.load()?` of the tracing skeleton.  The source returns
`HidBpfSkel::None` when BPF is disabled, `StructOps` when the struct_ops
load succeeds, `Tracing` when it fails but the tracing load succeeds — and
propagates the tracing load error (`?` operator) otherwise. -/
def preload_bpf_tracer (use_bpf : BpfOption) (bpffs_exists : Bool)
    (structOpsLoad : Except Str Unit) (tracingLoad : Except Str Unit) :
    Except Str HidBpfSkel :=
  let enable_bpf :=
    match use_bpf with
    | .never => false
    | .always => true
    | .auto => bpffs_exists
  if !enable_bpf then .ok .noSkel
  else
    match structOpsLoad with
    | .ok _ => .ok .structOps
    | .error _ =>
      match tracingLoad with
      | .ok _ => .ok .tracing
      | .error e => .error e

/-- Which event sources the capture session ends up reading. -/
inductive CaptureSource | directOnly | directWithStructOps | directWithTracing
  deriving Repr, DecidableEq

/-- The caller of `preload_bpf_tracer` (`src/hidraw.rs::read_events`,
lines 286–312; `src/main.rs::hid_recorder`, lines 1443–1464):
`match preload_bpf_tracer(use_bpf, path)? { None => direct read only,
StructOps => direct read + struct_ops ring buffer, Tracing => direct read +
tracing ring buffer }`.  The `?` propagates a `preload_bpf_tracer` error out
of the capture session. -/
def select_capture_source (preload : Except Str HidBpfSkel) :
    Except Str CaptureSource :=
  match preload with
  | .error e => .error e
  | .ok .noSkel => .ok .directOnly
  | .ok .structOps => .ok .directWithStructOps
  | .ok .tracing => .ok .directWithTracing

/-! ## LogicalMaximum display (`src/main.rs::fmt_global_item`, lines 368–377,
and `src/main.rs::logical_range_to_str`, lines 560–574) -/

/-- The bit pattern of an `i32` value reinterpreted as a `u32`
(Rust `maximum as u32`). -/
def i32AsU32 (m : Int) : Nat := (m % 4294967296).toNat

/-- The `GlobalItem::LogicalMaximum` arm of `src/main.rs::fmt_global_item`:
a maximum of exactly `-1` is printed as its `u32` reinterpretation,
everything else as the signed value. -/
def fmt_logical_maximum (maximum : Int) : Str :=
  if maximum = -1 then
    str "Logical Maximum (" ++ natToDec (i32AsU32 maximum) ++ str ")"
  else
    str "Logical Maximum (" ++ intToDec maximum ++ str ")"

/-- The `let max = match ...` of `src/main.rs::logical_range_to_str`:
`-1` and `0x7fffffff` are rendered as `format!("0x{m:x}")` (Rust formats an
`i32` with `{:x}` as the hex of its bit pattern), everything else as
`format!("{m}")`. -/
def logical_range_max_str (m : Int) : Str :=
  if m = -1 then str "0x" ++ natToHex (i32AsU32 m)
  else if m = 2147483647 then str "0x" ++ natToHex (i32AsU32 m)
  else intToDec m

/-- Right-aligned space padding to a given width, Rust `format!("{:w$}")`. -/
def padLeftSpaces (w : Nat) (s : Str) : Str :=
  List.replicate (w - s.length) ' ' ++ s

/-- Left-aligned space padding to a given width, Rust `format!("{:<w$}")`. -/
def padRightSpaces (w : Nat) (s : Str) : Str :=
  s ++ List.replicate (w - s.length) ' '

/-- `src/main.rs::logical_range_to_str`:
`format!("Logical Range: {:5}..={:<5}", i32::from(minimum), max)`. -/
def logical_range_to_str (minimum maximum : Int) : Str :=
  str "Logical Range: " ++ padLeftSpaces 5 (intToDec minimum) ++ str "..="
    ++ padRightSpaces 5 (logical_range_max_str maximum)

/-! ## The number-array descriptor backend
(`src/numberarray.rs`, `TryFrom<&Path> for NumberArrayBackend`) -/

/-- A separator in the number-array format: whitespace or a comma. -/
def isSepChar (c : Char) : Bool := isRustWs c || c = ','

/-- Rust `str::strip_prefix(p)`. -/
def stripPre (p s : Str) : Option Str :=
  if s.take p.length = p then some (s.drop p.length) else none

/-- `s.strip_prefix("0x").or_else(|| s.strip_prefix("0X")).unwrap_or(s)`. -/
def stripHexMarker (s : Str) : Str :=
  match stripPre (str "0x") s with
  | some s1 => s1
  | none =>
    match stripPre (str "0X") s with
    | some s2 => s2
    | none => s

/-- One token of the separated number-array format:
`token.trim().strip_prefix("0x").or_else(|| token.trim().strip_prefix("0X"))
.unwrap_or(token.trim())` then `u8::from_str_radix(hex_str, 16)`. -/
def numberArrayToken (token : Str) : Option Nat :=
  parseRadix 16 255 (stripHexMarker (trimStr token))

/-- Consecutive two-character chunks of a string of even length. -/
def chunkPairs : Str → List Str
  | c1 :: c2 :: rest => [c1, c2] :: chunkPairs rest
  | _ => []

/-- `data.trim().trim_start_matches('[').trim_end_matches(']')` in
`src/numberarray.rs`. -/
def numberArrayStripped (contents : Str) : Str :=
  ((((trimStr contents).dropWhile (fun c => c = '[')).reverse.dropWhile
    (fun c => c = ']')).reverse)

/-- The descriptor-byte parsing of `TryFrom<&Path> for NumberArrayBackend`
(`src/numberarray.rs`, lines 21–77), applied to the file contents: trim,
strip surrounding brackets, then either split on whitespace/commas and parse
each non-empty token as a (possibly `0x`/`0X`-prefixed) hex byte, or — when
no separator occurs — strip one optional `0x`/`0X` prefix and parse the
remaining text as pairs of hex digits (`u8::from_str_radix` per pair). -/
def numberArrayDecode (contents : Str) : Option (List Nat) :=
  let data := numberArrayStripped contents
  let has_separators := data.any isSepChar
  if has_separators then
    mapMOpt numberArrayToken ((splitAll isSepChar data).filter (fun s => s ≠ []))
  else
    let hex_str := stripHexMarker data
    if hex_str.length % 2 ≠ 0 then none
    else mapMOpt (parseRadix 16 255) (chunkPairs hex_str)

/-! ### Reference renderings of a byte sequence in the number-array formats
(the inputs the number-array backend documents in its comment and tests:
`01 02 03 04`, `01, 02, 03, 04`, `[01, 02, 03, 04]`, `01020304`, each
optionally `0x`/`0X`-prefixed). -/

/-- Space-separated two-hex-digit rendering: `"01 02 03"`. -/
def renderSpaceSep (bs : List Nat) : Str := joinWith (str " ") (bs.map byteHex)

/-- Comma-space-separated rendering: `"01, 02, 03"`. -/
def renderCommaSep (bs : List Nat) : Str := joinWith (str ", ") (bs.map byteHex)

/-- `0x`-prefixed space-separated rendering: `"0x01 0x02 0x03"`. -/
def render0xSpaceSep (bs : List Nat) : Str :=
  joinWith (str " ") (bs.map (fun b => str "0x" ++ byteHex b))

/-- Continuous concatenated hex-string rendering: `"010203"`. -/
def renderCont (bs : List Nat) : Str := (bs.map byteHex).flatten

/-! ## Basic lemmas about the string machinery -/

/-- All digit characters: not whitespace, not one of the delimiter
characters of the formats, and `hexDigit?` recovers the value. -/
theorem digitChar_facts : ∀ d < 16,
    isRustWs (digitChar d) = false ∧ digitChar d ≠ ' ' ∧ digitChar d ≠ ','
      ∧ digitChar d ≠ '.' ∧ digitChar d ≠ '[' ∧ digitChar d ≠ ']'
      ∧ digitChar d ≠ '#' ∧ digitChar d ≠ '+' ∧ digitChar d ≠ 'x'
      ∧ digitChar d ≠ 'X' ∧ hexDigit? (digitChar d) = some d := by
  decide

theorem hexDigit?_digitChar {d : Nat} (h : d < 16) :
    hexDigit? (digitChar d) = some d :=
  (digitChar_facts d h).2.2.2.2.2.2.2.2.2.2

theorem digitChar_not_ws {d : Nat} (h : d < 16) :
    isRustWs (digitChar d) = false :=
  (digitChar_facts d h).1

theorem digitChar_ne_space {d : Nat} (h : d < 16) : digitChar d ≠ ' ' :=
  (digitChar_facts d h).2.1

theorem natToDecAux_mem {fuel n : Nat} {c : Char} (hc : c ∈ natToDecAux fuel n) :
    ∃ d, d < 10 ∧ c = digitChar d := by
  induction fuel generalizing n with
  | zero =>
    simp only [natToDecAux, List.mem_singleton] at hc
    exact ⟨n % 10, Nat.mod_lt _ (by omega), hc⟩
  | succ m ih =>
    rw [natToDecAux] at hc
    by_cases h : n < 10
    · simp only [if_pos h, List.mem_singleton] at hc
      exact ⟨n, h, hc⟩
    · simp only [if_neg h, List.mem_append, List.mem_singleton] at hc
      rcases hc with hc | hc
      · exact ih hc
      · exact ⟨n % 10, Nat.mod_lt _ (by omega), hc⟩

/-- Characters of `natToDec n` are digit characters of value `< 10`. -/
theorem natToDec_mem {n : Nat} {c : Char} (hc : c ∈ natToDec n) :
    ∃ d, d < 10 ∧ c = digitChar d := natToDecAux_mem hc

theorem natToHexAux_mem {fuel n : Nat} {c : Char} (hc : c ∈ natToHexAux fuel n) :
    ∃ d, d < 16 ∧ c = digitChar d := by
  induction fuel generalizing n with
  | zero =>
    simp only [natToHexAux, List.mem_singleton] at hc
    exact ⟨n % 16, Nat.mod_lt _ (by omega), hc⟩
  | succ m ih =>
    rw [natToHexAux] at hc
    by_cases h : n < 16
    · simp only [if_pos h, List.mem_singleton] at hc
      exact ⟨n, h, hc⟩
    · simp only [if_neg h, List.mem_append, List.mem_singleton] at hc
      rcases hc with hc | hc
      · exact ih hc
      · exact ⟨n % 16, Nat.mod_lt _ (by omega), hc⟩

/-- Characters of `natToHex n` are digit characters of value `< 16`. -/
theorem natToHex_mem {n : Nat} {c : Char} (hc : c ∈ natToHex n) :
    ∃ d, d < 16 ∧ c = digitChar d := natToHexAux_mem hc

theorem natToDec_ne_nil {n : Nat} : natToDec n ≠ [] := by
  rw [natToDec]
  cases n with
  | zero => simp [natToDecAux]
  | succ m =>
    rw [natToDecAux]
    by_cases h : m + 1 < 10 <;> simp [h]

theorem natToHex_ne_nil {n : Nat} : natToHex n ≠ [] := by
  rw [natToHex]
  cases n with
  | zero => simp [natToHexAux]
  | succ m =>
    rw [natToHexAux]
    by_cases h : m + 1 < 16 <;> simp [h]

theorem natToDec_no_space {n : Nat} {c : Char} (hc : c ∈ natToDec n) : c ≠ ' ' := by
  obtain ⟨d, hd, rfl⟩ := natToDec_mem hc
  exact digitChar_ne_space (by omega)

theorem natToHex_no_space {n : Nat} {c : Char} (hc : c ∈ natToHex n) : c ≠ ' ' := by
  obtain ⟨d, hd, rfl⟩ := natToHex_mem hc
  exact digitChar_ne_space hd

theorem pad6_no_space {n : Nat} {c : Char} (hc : c ∈ pad6 n) : c ≠ ' ' := by
  simp only [pad6, List.mem_append, List.mem_replicate] at hc
  rcases hc with hc | hc
  · rintro rfl; exact absurd hc.2 (by decide)
  · exact natToDec_no_space hc

theorem pad6_no_dot {n : Nat} {c : Char} (hc : c ∈ pad6 n) : c ≠ '.' := by
  simp only [pad6, List.mem_append, List.mem_replicate] at hc
  rcases hc with hc | hc
  · rintro rfl; exact absurd hc.2 (by decide)
  · obtain ⟨d, hd, rfl⟩ := natToDec_mem hc
    exact (digitChar_facts d (by omega)).2.2.2.1

/-! ### `splitOnce` -/

theorem splitOnce_append {c : Char} {a : Str} (b : Str) (ha : ∀ x ∈ a, x ≠ c) :
    splitOnce c (a ++ c :: b) = some (a, b) := by
  induction a with
  | nil => simp [splitOnce]
  | cons x xs ih =>
    have hx : x ≠ c := ha x (by simp)
    simp only [List.cons_append, splitOnce, if_neg hx]
    rw [List.append_eq, ih (fun y hy => ha y (by simp [hy]))]
    rfl

theorem splitOnce_eq_none {c : Char} {a : Str} (ha : ∀ x ∈ a, x ≠ c) :
    splitOnce c a = none := by
  induction a with
  | nil => rfl
  | cons x xs ih =>
    have hx : x ≠ c := ha x (by simp)
    simp [splitOnce, if_neg hx, ih (fun y hy => ha y (by simp [hy]))]

/-! ### `splitAll` -/

theorem splitAll_ne_nil {p : Char → Bool} {s : Str} : splitAll p s ≠ [] := by
  cases s with
  | nil => simp [splitAll]
  | cons x xs =>
    simp only [splitAll]
    rcases h : splitAll p xs with _ | ⟨t, ts⟩
    · simp
    · by_cases hx : p x <;> simp [hx]

theorem splitAll_no_sep {p : Char → Bool} {t : Str} (ht : ∀ x ∈ t, p x = false) :
    splitAll p t = [t] := by
  induction t with
  | nil => rfl
  | cons x xs ih =>
    have hx : p x = false := ht x (by simp)
    rw [splitAll, ih (fun y hy => ht y (by simp [hy]))]
    simp [hx]

theorem splitAll_append {p : Char → Bool} {t : Str} {c : Char} (rest : Str)
    (ht : ∀ x ∈ t, p x = false) (hc : p c = true) :
    splitAll p (t ++ c :: rest) = t :: splitAll p rest := by
  induction t with
  | nil =>
    rcases h : splitAll p rest with _ | ⟨u, us⟩
    · exact absurd h splitAll_ne_nil
    · simp [splitAll, h, hc]
  | cons x xs ih =>
    have hx : p x = false := ht x (by simp)
    rw [List.cons_append, splitAll, ih (fun y hy => ht y (by simp [hy]))]
    simp [hx]

/-! ### Trimming -/

theorem trimStart_cons_of_not_ws {c : Char} {s : Str} (h : isRustWs c = false) :
    trimStart (c :: s) = c :: s := by
  simp [trimStart, List.dropWhile_cons, h]

theorem trimEnd_append_of_not_ws {d : Char} {s : Str} (h : isRustWs d = false) :
    trimEnd (s ++ [d]) = s ++ [d] := by
  simp [trimEnd, List.dropWhile_cons, h]

theorem trimEnd_append_of_ws {d : Char} {s : Str} (h : isRustWs d = true) :
    trimEnd (s ++ [d]) = trimEnd s := by
  simp [trimEnd, List.dropWhile_cons, h]

/-- A string whose first and last characters are not whitespace trims to
itself. -/
theorem trimStr_eq_self {s : Str} (h1 : ∀ c, s.head? = some c → isRustWs c = false)
    (h2 : ∀ c, s.getLast? = some c → isRustWs c = false) :
    trimStr s = s := by
  cases s with
  | nil => rfl
  | cons x xs =>
    have hx : isRustWs x = false := h1 x rfl
    rw [trimStr, trimStart_cons_of_not_ws hx]
    rcases List.eq_nil_or_concat (x :: xs) with h | ⟨t, d, hd⟩
    · simp at h
    · rw [List.concat_eq_append] at hd
      rw [hd]
      refine trimEnd_append_of_not_ws (h2 d ?_)
      rw [hd, List.getLast?_concat]

theorem trimStart_length_le (s : Str) : (trimStart s).length ≤ s.length :=
  (List.dropWhile_sublist _).length_le

theorem trimEnd_length_le (s : Str) : (trimEnd s).length ≤ s.length := by
  simpa [trimEnd] using (List.dropWhile_sublist (l := s.reverse) (p := isRustWs)).length_le

/-- Conversely, a trim-stable non-empty string has a non-whitespace first
character. -/
theorem head_not_ws_of_trimStr_eq {s : Str} (h : trimStr s = s) {c : Char}
    (hc : s.head? = some c) : isRustWs c = false := by
  cases s with
  | nil => simp at hc
  | cons x xs =>
    have hxc : x = c := by simpa using hc
    subst hxc
    by_contra hw
    have hw : isRustWs x = true := by simpa using hw
    have h1 : trimStr (x :: xs) = trimEnd (trimStart xs) := by
      simp [trimStr, trimStart, List.dropWhile_cons, hw]
    have hlen : (trimEnd (trimStart xs)).length ≤ xs.length :=
      le_trans (trimEnd_length_le _) (trimStart_length_le _)
    rw [h] at h1
    have hlen2 : (x :: xs).length ≤ xs.length := h1 ▸ hlen
    simp at hlen2

/-- When `trimStart` leaves a string non-empty it keeps its last
character. -/
theorem trimStart_getLast? {s : Str} (h : trimStart s ≠ []) :
    (trimStart s).getLast? = s.getLast? := by
  induction s with
  | nil => rfl
  | cons x xs ih =>
    by_cases hx : isRustWs x
    · have hts : trimStart (x :: xs) = trimStart xs := by
        simp [trimStart, List.dropWhile_cons, hx]
      rw [hts] at h ⊢
      have hxs : xs ≠ [] := by
        rintro rfl; exact h rfl
      obtain ⟨y, ys, rfl⟩ := List.exists_cons_of_ne_nil hxs
      rw [ih h]
      exact List.getLast?_cons_cons.symm
    · rw [trimStart_cons_of_not_ws (by simpa using hx)]

/-- A trim-stable non-empty string has a non-whitespace last character. -/
theorem getLast_not_ws_of_trimStr_eq {s : Str} (h : trimStr s = s) {c : Char}
    (hc : s.getLast? = some c) : isRustWs c = false := by
  by_contra hw
  have hw : isRustWs c = true := by simpa using hw
  cases hu : trimStart s with
  | nil =>
    have hnil : s = [] := by
      have : trimStr s = [] := by rw [trimStr, hu]; rfl
      rw [h] at this; exact this
    rw [hnil] at hc; simp at hc
  | cons x xs =>
    have hne : trimStart s ≠ [] := by rw [hu]; simp
    have hlast : (trimStart s).getLast? = some c := by rw [trimStart_getLast? hne, hc]
    obtain ⟨t, d, hd⟩ := (List.eq_nil_or_concat (trimStart s)).resolve_left hne
    rw [List.concat_eq_append] at hd
    have hdc : d = c := by
      rw [hd, List.getLast?_concat] at hlast
      simpa using hlast
    have hshort : (trimStr s).length ≤ t.length := by
      rw [trimStr, hd, hdc, trimEnd_append_of_ws hw]
      exact trimEnd_length_le t
    have hlen : (trimStart s).length ≤ s.length := trimStart_length_le s
    rw [hd] at hlen
    rw [h] at hshort
    simp only [List.length_append, List.length_cons, List.length_nil] at hlen
    omega

/-! ### Numeric rendering round-trips -/

theorem foldl_dvStep_natToDecAux (fuel : Nat) :
    ∀ n a, n ≤ fuel →
      List.foldl (dvStep 10) (some a) (natToDecAux fuel n)
        = some (a * 10 ^ (natToDecAux fuel n).length + n) := by
  induction fuel with
  | zero =>
    intro n a h
    obtain rfl : n = 0 := by omega
    simp [natToDecAux, dvStep, hexDigit?_digitChar (show 0 < 16 by omega)]
  | succ m ih =>
    intro n a h
    by_cases h10 : n < 10
    · rw [natToDecAux, if_pos h10]
      simp only [List.foldl_cons, List.foldl_nil, dvStep,
        hexDigit?_digitChar (show n < 16 by omega), if_pos h10, List.length_singleton]
      norm_num
    · have hdiv : n / 10 ≤ m := by
        have := Nat.div_lt_self (show 0 < n by omega) (show 1 < 10 by omega)
        omega
      rw [natToDecAux, if_neg h10, List.foldl_append, ih (n / 10) a hdiv]
      have hm : n % 10 < 10 := Nat.mod_lt _ (by omega)
      simp only [List.foldl_cons, List.foldl_nil, dvStep,
        hexDigit?_digitChar (show n % 10 < 16 by omega), if_pos hm,
        List.length_append, List.length_singleton]
      congr 1
      have hdm : n / 10 * 10 + n % 10 = n := by omega
      rw [Nat.add_mul, Nat.add_assoc, hdm, pow_succ, Nat.mul_assoc]

theorem foldl_dvStep_natToHexAux (fuel : Nat) :
    ∀ n a, n ≤ fuel →
      List.foldl (dvStep 16) (some a) (natToHexAux fuel n)
        = some (a * 16 ^ (natToHexAux fuel n).length + n) := by
  induction fuel with
  | zero =>
    intro n a h
    obtain rfl : n = 0 := by omega
    simp [natToHexAux, dvStep, hexDigit?_digitChar (show 0 < 16 by omega)]
  | succ m ih =>
    intro n a h
    by_cases h16 : n < 16
    · rw [natToHexAux, if_pos h16]
      simp only [List.foldl_cons, List.foldl_nil, dvStep,
        hexDigit?_digitChar h16, if_pos h16, List.length_singleton]
      norm_num
    · have hdiv : n / 16 ≤ m := by
        have := Nat.div_lt_self (show 0 < n by omega) (show 1 < 16 by omega)
        omega
      rw [natToHexAux, if_neg h16, List.foldl_append, ih (n / 16) a hdiv]
      have hm : n % 16 < 16 := Nat.mod_lt _ (by omega)
      simp only [List.foldl_cons, List.foldl_nil, dvStep,
        hexDigit?_digitChar hm, if_pos hm,
        List.length_append, List.length_singleton]
      congr 1
      have hdm : n / 16 * 16 + n % 16 = n := by omega
      rw [Nat.add_mul, Nat.add_assoc, hdm, pow_succ, Nat.mul_assoc]

theorem digitsVal_natToDec (n : Nat) : digitsVal 10 (natToDec n) = some n := by
  simpa [natToDec] using foldl_dvStep_natToDecAux n n 0 le_rfl

theorem digitsVal_natToHex (n : Nat) : digitsVal 16 (natToHex n) = some n := by
  simpa [natToHex] using foldl_dvStep_natToHexAux n n 0 le_rfl

theorem stripLeadingPlus_eq_self {s : Str} (h : s.head? ≠ some '+') :
    stripLeadingPlus s = s := by
  cases s with
  | nil => rfl
  | cons x xs =>
    have hx : x ≠ '+' := by
      intro hh
      exact h (by simp [hh])
    simp [stripLeadingPlus, hx]

theorem natToDec_head_ne_plus (n : Nat) : (natToDec n).head? ≠ some '+' := by
  cases hh : natToDec n with
  | nil => simp
  | cons c t =>
    have hc : c ∈ natToDec n := by rw [hh]; exact List.mem_cons_self c t
    obtain ⟨d, hd, rfl⟩ := natToDec_mem hc
    have := (digitChar_facts d (by omega)).2.2.2.2.2.2.2.1
    simpa using this

theorem natToHex_head_ne_plus (n : Nat) : (natToHex n).head? ≠ some '+' := by
  cases hh : natToHex n with
  | nil => simp
  | cons c t =>
    have hc : c ∈ natToHex n := by rw [hh]; exact List.mem_cons_self c t
    obtain ⟨d, hd, rfl⟩ := natToHex_mem hc
    have := (digitChar_facts d hd).2.2.2.2.2.2.2.1
    simpa using this

theorem parseRadix_natToDec {n max : Nat} (h : n ≤ max) :
    parseRadix 10 max (natToDec n) = some n := by
  rw [parseRadix, stripLeadingPlus_eq_self (natToDec_head_ne_plus n)]
  simp only [if_neg natToDec_ne_nil, digitsVal_natToDec, if_pos h]

theorem parseRadix_natToHex {n max : Nat} (h : n ≤ max) :
    parseRadix 16 max (natToHex n) = some n := by
  rw [parseRadix, stripLeadingPlus_eq_self (natToHex_head_ne_plus n)]
  simp only [if_neg natToHex_ne_nil, digitsVal_natToHex, if_pos h]

theorem foldl_dvStep_zeros (k : Nat) (s : Str) :
    List.foldl (dvStep 10) (some 0) (List.replicate k '0' ++ s)
      = List.foldl (dvStep 10) (some 0) s := by
  induction k with
  | zero => rfl
  | succ m ih =>
    rw [List.replicate_succ, List.cons_append, List.foldl_cons]
    have hstep : dvStep 10 (some 0) '0' = some 0 := by decide
    rw [hstep, ih]

theorem pad6_head_ne_plus (n : Nat) : (pad6 n).head? ≠ some '+' := by
  rw [pad6]
  cases hk : 6 - (natToDec n).length with
  | zero => simpa using natToDec_head_ne_plus n
  | succ m =>
    rw [List.replicate_succ, List.cons_append]
    simp

theorem pad6_ne_nil (n : Nat) : pad6 n ≠ [] := by
  rw [pad6]
  simp [natToDec_ne_nil]

theorem parseRadix_pad6 {n max : Nat} (h : n ≤ max) :
    parseRadix 10 max (pad6 n) = some n := by
  rw [parseRadix, stripLeadingPlus_eq_self (pad6_head_ne_plus n)]
  have hdv : digitsVal 10 (pad6 n) = some n := by
    rw [pad6, digitsVal, foldl_dvStep_zeros]
    exact digitsVal_natToDec n
  simp only [if_neg (pad6_ne_nil n), hdv, if_pos h]

/-! ### Hex byte rendering round-trips -/

theorem byteHex_no_space {b : Nat} {c : Char} (hc : c ∈ byteHex b) : c ≠ ' ' := by
  rw [byteHex] at hc
  simp only [List.mem_cons, List.not_mem_nil, or_false] at hc
  rcases hc with rfl | rfl
  · exact digitChar_ne_space (Nat.mod_lt _ (by omega))
  · exact digitChar_ne_space (Nat.mod_lt _ (by omega))

theorem hexDecode_flattenHex {bs : List Nat} (hb : ∀ b ∈ bs, b < 256) :
    hexDecode (bs.map byteHex).flatten = some bs := by
  induction bs with
  | nil => rfl
  | cons b bt ih =>
    have hb0 : b < 256 := hb b (by simp)
    have h1 : b / 16 % 16 < 16 := Nat.mod_lt _ (by omega)
    have h2 : b % 16 < 16 := Nat.mod_lt _ (by omega)
    show hexDecode (byteHex b ++ (bt.map byteHex).flatten) = some (b :: bt)
    rw [byteHex, List.cons_append, List.cons_append, List.nil_append, hexDecode]
    have hv : b / 16 % 16 * 16 + b % 16 = b := by omega
    simp only [hexDigit?_digitChar h1, hexDigit?_digitChar h2,
      ih (fun x hx => hb x (by simp [hx])), hv]

theorem filter_space_join_byteHex (bs : List Nat) :
    (joinWith (str " ") (bs.map byteHex)).filter (fun c => c ≠ ' ')
      = (bs.map byteHex).flatten := by
  induction bs with
  | nil => rfl
  | cons b bt ih =>
    cases bt with
    | nil =>
      show (byteHex b).filter (fun c => c ≠ ' ') = byteHex b ++ [].flatten
      rw [List.filter_eq_self.mpr]
      · simp
      · intro c hc
        simpa using byteHex_no_space hc
    | cons b2 bt2 =>
      show (byteHex b ++ (str " ") ++ joinWith (str " ")
          ((b2 :: bt2).map byteHex)).filter (fun c => c ≠ ' ') = _
      rw [List.filter_append, List.filter_append, ih]
      rw [List.filter_eq_self.mpr (fun c hc => by simpa using byteHex_no_space hc)]
      rfl

theorem filter_space_byteHexTrail (bs : List Nat) :
    ((bs.map (fun b => byteHex b ++ [' '])).flatten).filter (fun c => c ≠ ' ')
      = (bs.map byteHex).flatten := by
  induction bs with
  | nil => rfl
  | cons b bt ih =>
    show ((byteHex b ++ [' ']) ++ _).filter (fun c => c ≠ ' ') = _
    rw [List.filter_append, List.filter_append, ih]
    rw [List.filter_eq_self.mpr (fun c hc => by simpa using byteHex_no_space hc)]
    simp

/-! ### Support for the round-trip proof -/

theorem str_space : str " " = [' '] := rfl

theorem joinWith_concat (sep : Str) (ts : List Str) (t : Str) (h : ts ≠ []) :
    joinWith sep (ts ++ [t]) = joinWith sep ts ++ sep ++ t := by
  induction ts with
  | nil => exact absurd rfl h
  | cons x xs ih =>
    cases xs with
    | nil => rfl
    | cons y ys =>
      have ih2 := ih (by simp)
      show x ++ sep ++ joinWith sep ((y :: ys) ++ [t])
        = (x ++ sep ++ joinWith sep (y :: ys)) ++ sep ++ t
      rw [ih2]
      simp [List.append_assoc]

/-- A joined rendering whose tokens all end in a hex digit ends in a hex
digit character. -/
theorem getLast?_joinWith_tok (sep : Str) (tok : Nat → Str)
    (htok : ∀ b, ∃ d, d < 16 ∧ (tok b).getLast? = some (digitChar d))
    (bs : List Nat) (hne : bs ≠ []) :
    ∃ d, d < 16 ∧ (joinWith sep (bs.map tok)).getLast? = some (digitChar d) := by
  obtain ⟨init, b, rfl⟩ := (List.eq_nil_or_concat bs).resolve_left hne
  rw [List.concat_eq_append, List.map_append, List.map_singleton]
  obtain ⟨d, hd, hlast⟩ := htok b
  have htne : tok b ≠ [] := by
    intro h
    rw [h] at hlast
    simp at hlast
  refine ⟨d, hd, ?_⟩
  cases init with
  | nil =>
    show (joinWith sep [tok b]).getLast? = _
    rw [joinWith, hlast]
  | cons x xs =>
    rw [joinWith_concat _ _ _ (by simp)]
    rw [List.getLast?_append_of_ne_nil _ htne, hlast]

/-- The sep-joined hex rendering of a non-empty byte list ends in a hex
digit character. -/
theorem getLast?_join_byteHex (sep : Str) (bs : List Nat) (hne : bs ≠ []) :
    ∃ d, d < 16 ∧ (joinWith sep (bs.map byteHex)).getLast?
      = some (digitChar d) :=
  getLast?_joinWith_tok sep byteHex
    (fun b => ⟨b % 16, Nat.mod_lt _ (by omega), by
      rw [byteHex, List.getLast?_cons_cons]; rfl⟩) bs hne

/-- The first token of a joined rendering gives its first character. -/
theorem head?_joinWith_cons (sep : Str) (x : Str) (ts : List Str) (hx : x ≠ []) :
    (joinWith sep (x :: ts)).head? = x.head? := by
  obtain ⟨c, t, rfl⟩ := List.exists_cons_of_ne_nil hx
  cases ts with
  | nil => rfl
  | cons y ys => rfl

theorem mem_of_head?Str {s : Str} {c : Char} (h : s.head? = some c) : c ∈ s := by
  cases s with
  | nil => simp at h
  | cons x t =>
    obtain rfl : x = c := by simpa using h
    exact List.mem_cons_self x t

theorem mem_of_getLast?Str {s : Str} {c : Char} (h : s.getLast? = some c) : c ∈ s := by
  rcases List.eq_nil_or_concat s with rfl | ⟨t, d, hd⟩
  · simp at h
  · rw [List.concat_eq_append] at hd
    subst hd
    rw [List.getLast?_concat] at h
    obtain rfl : d = c := by simpa using h
    simp

/-- A trim-stable string is also `trim_start`- and `trim_end`-stable. -/
theorem trimStart_eq_of_trimStr {s : Str} (h : trimStr s = s) :
    trimStart s = s ∧ trimEnd s = s := by
  have h1 : (trimStr s).length ≤ (trimStart s).length := trimEnd_length_le _
  have h2 : (trimStart s).length ≤ s.length := trimStart_length_le s
  rw [h] at h1
  have hsub : (trimStart s).Sublist s := List.dropWhile_sublist _
  have hts : trimStart s = s := hsub.eq_of_length (by omega)
  refine ⟨hts, ?_⟩
  have h3 : trimEnd (trimStart s) = s := h
  rw [hts] at h3
  exact h3

/-- Appending one space to a trim-stable string trims back to it. -/
theorem trimStr_concat_space {x : Str} (hx : trimStr x = x) :
    trimStr (x ++ [' ']) = x := by
  obtain ⟨hstart, hend⟩ := trimStart_eq_of_trimStr hx
  cases x with
  | nil => rfl
  | cons c t =>
    have hc : isRustWs c = false := head_not_ws_of_trimStr_eq hx rfl
    rw [trimStr, List.cons_append, trimStart_cons_of_not_ws hc,
      ← List.cons_append, trimEnd_append_of_ws (by decide)]
    exact hend

/-- A line of the form `<tag char><tag char><space><rest>` whose last
character is not whitespace is trim-stable. -/
theorem trimStr_tagline {c1 c2 : Char} {rest : Str}
    (hc1 : isRustWs c1 = false)
    (hlast : ∀ d, (c1 :: c2 :: ' ' :: rest).getLast? = some d → isRustWs d = false) :
    trimStr (c1 :: c2 :: ' ' :: rest) = c1 :: c2 :: ' ' :: rest :=
  trimStr_eq_self (by intro e he; rw [show e = c1 by simpa using he.symm]; exact hc1)
    hlast

theorem getLast_not_ws_of_all {s : Str} (hall : ∀ c ∈ s, isRustWs c = false) :
    ∀ c, s.getLast? = some c → isRustWs c = false := by
  intro c hc
  rcases List.eq_nil_or_concat s with rfl | ⟨t, d, hd⟩
  · simp at hc
  · rw [List.concat_eq_append] at hd
    subst hd
    rw [List.getLast?_concat] at hc
    have hdc : d = c := by simpa using hc
    subst hdc
    exact hall d (by simp)

theorem natToHex_all_not_ws {n : Nat} : ∀ c ∈ natToHex n, isRustWs c = false := by
  intro c hc
  obtain ⟨d, hd, rfl⟩ := natToHex_mem hc
  exact digitChar_not_ws hd

/-- The recorder's per-byte `"{b:02x} "` rendering of a non-empty byte
list is its space-joined rendering followed by one trailing space. -/
theorem flattenTrail_eq_join (bs : List Nat) (h : bs ≠ []) :
    (bs.map (fun b => byteHex b ++ [' '])).flatten
      = joinWith (str " ") (bs.map byteHex) ++ [' '] := by
  induction bs with
  | nil => exact absurd rfl h
  | cons b bt ih =>
    cases bt with
    | nil => rfl
    | cons b2 bt2 =>
      show (byteHex b ++ [' ']) ++ ((b2 :: bt2).map (fun b => byteHex b ++ [' '])).flatten
        = (byteHex b ++ str " " ++ joinWith (str " ") ((b2 :: bt2).map byteHex)) ++ [' ']
      rw [ih (by simp)]
      simp [str_space, List.append_assoc]

/-- Decoding the recorder's `<len> <hex bytes space-joined>` rendering. -/
theorem data_decode_written (bs : List Nat) (hb : ∀ b ∈ bs, b < 256)
    (hlen : bs.length ≤ u64Max) :
    data_decode (natToDec bs.length ++ ' ' :: joinWith (str " ") (bs.map byteHex))
      = .ok (bs.length, bs) := by
  have hsp : splitOnce ' '
      (natToDec bs.length ++ ' ' :: joinWith (str " ") (bs.map byteHex))
      = some (natToDec bs.length, joinWith (str " ") (bs.map byteHex)) :=
    splitOnce_append _ (fun x hx => natToDec_no_space hx)
  simp only [data_decode, hsp, parseRadix_natToDec hlen,
    filter_space_join_byteHex, hexDecode_flattenHex hb]
  simp

/-- The strict parser accepts the written `R:` line. -/
theorem parseLine_R (st : ParseState) (bs : List Nat) (hb : ∀ b ∈ bs, b < 256)
    (hlen : bs.length ≤ u64Max) :
    parseLine st (str "R: " ++ natToDec bs.length ++ str " "
        ++ joinWith (str " ") (bs.map byteHex))
      = .ok { st with rdesc := some bs } := by
  have hline : str "R: " ++ natToDec bs.length ++ str " "
      ++ joinWith (str " ") (bs.map byteHex)
      = ['R', ':'] ++ ' ' :: (natToDec bs.length ++ ' '
          :: joinWith (str " ") (bs.map byteHex)) := by
    rw [show str "R: " = ['R', ':', ' '] from rfl, str_space]
    simp [List.append_assoc]
  have hsp : splitOnce ' ' (['R', ':'] ++ ' ' :: (natToDec bs.length ++ ' '
      :: joinWith (str " ") (bs.map byteHex)))
      = some (['R', ':'], natToDec bs.length ++ ' '
          :: joinWith (str " ") (bs.map byteHex)) :=
    splitOnce_append _ (by decide)
  rw [hline]
  simp only [parseLine, hsp]
  rw [if_neg (by decide), if_neg (by decide), if_pos (by decide),
    data_decode_written bs hb hlen]

/-- The strict parser accepts the written `N:` line. -/
theorem parseLine_N (st : ParseState) (name : Str) :
    parseLine st (str "N: " ++ name) = .ok { st with name := some name } := by
  have hline : str "N: " ++ name = ['N', ':'] ++ ' ' :: name := rfl
  have hsp : splitOnce ' ' (['N', ':'] ++ ' ' :: name) = some (['N', ':'], name) :=
    splitOnce_append _ (by decide)
  rw [hline]
  simp only [parseLine, hsp]
  rw [if_pos (by decide)]

/-- The strict parser accepts the written `I:` line. -/
theorem parseLine_I (st : ParseState) (b v p : Nat) (hb : b < 65536)
    (hv : v < 65536) (hp : p < 65536) :
    parseLine st (str "I: " ++ natToHex b ++ str " " ++ natToHex v ++ str " "
        ++ natToHex p)
      = .ok { st with ids := some (b, v, p) } := by
  have htok : ∀ n : Nat, ∀ x ∈ natToHex n, (fun c => (c = ' ' : Bool)) x = false := by
    intro n x hx
    simp [natToHex_no_space hx]
  have hline : str "I: " ++ natToHex b ++ str " " ++ natToHex v ++ str " "
      ++ natToHex p
      = ['I', ':'] ++ ' ' :: (natToHex b ++ ' ' :: (natToHex v ++ ' '
          :: natToHex p)) := by
    rw [show str "I: " = ['I', ':', ' '] from rfl, str_space]
    simp [List.append_assoc]
  have hsp : splitOnce ' ' (['I', ':'] ++ ' ' :: (natToHex b ++ ' '
      :: (natToHex v ++ ' ' :: natToHex p)))
      = some (['I', ':'], natToHex b ++ ' ' :: (natToHex v ++ ' ' :: natToHex p)) :=
    splitOnce_append _ (by decide)
  have hsplit : splitAll (fun c => (c = ' ' : Bool))
      (natToHex b ++ ' ' :: (natToHex v ++ ' ' :: natToHex p))
      = [natToHex b, natToHex v, natToHex p] := by
    rw [splitAll_append _ (htok b) (by decide),
      splitAll_append _ (htok v) (by decide),
      splitAll_no_sep (htok p)]
  have hmap : mapMOpt (parseRadix 16 65535) [natToHex b, natToHex v, natToHex p]
      = some [b, v, p] := by
    simp [mapMOpt, parseRadix_natToHex (show b ≤ 65535 by omega),
      parseRadix_natToHex (show v ≤ 65535 by omega),
      parseRadix_natToHex (show p ≤ 65535 by omega)]
  rw [hline]
  simp only [parseLine, hsp]
  rw [if_neg (by decide), if_pos (by decide)]
  simp only [hsplit, hmap]

/-- The strict parser accepts the trimmed form of a written `E:` line. -/
theorem parseLine_E (st : ParseState) (e : Event) (ht : e.usecs ≤ u64Max)
    (hblen : e.bytes.length ≤ u64Max) (hb : ∀ b ∈ e.bytes, b < 256) :
    parseLine st (writeELineCore e) = .ok { st with events := st.events ++ [e] } := by
  obtain ⟨t, bs⟩ := e
  dsimp only at ht hblen hb ⊢
  have hline : writeELineCore ⟨t, bs⟩
      = ['E', ':'] ++ ' ' :: ((pad6 (t / 1000000) ++ '.' :: pad6 (t % 1000000))
          ++ ' ' :: (natToDec bs.length ++ ' '
            :: joinWith (str " ") (bs.map byteHex))) := by
    rw [writeELineCore, show str "E: " = ['E', ':', ' '] from rfl,
      show str "." = ['.'] from rfl, str_space]
    simp [List.append_assoc]
  have hsp : splitOnce ' ' (['E', ':'] ++ ' '
      :: ((pad6 (t / 1000000) ++ '.' :: pad6 (t % 1000000))
          ++ ' ' :: (natToDec bs.length ++ ' '
            :: joinWith (str " ") (bs.map byteHex))))
      = some (['E', ':'], (pad6 (t / 1000000) ++ '.' :: pad6 (t % 1000000))
          ++ ' ' :: (natToDec bs.length ++ ' '
            :: joinWith (str " ") (bs.map byteHex))) :=
    splitOnce_append _ (by decide)
  have hts : splitOnce ' ' ((pad6 (t / 1000000) ++ '.' :: pad6 (t % 1000000))
      ++ ' ' :: (natToDec bs.length ++ ' ' :: joinWith (str " ") (bs.map byteHex)))
      = some (pad6 (t / 1000000) ++ '.' :: pad6 (t % 1000000),
          natToDec bs.length ++ ' ' :: joinWith (str " ") (bs.map byteHex)) := by
    refine splitOnce_append _ ?_
    intro x hx
    rcases List.mem_append.mp hx with hx | hx
    · exact pad6_no_space hx
    · rcases List.mem_cons.mp hx with rfl | hx
      · decide
      · exact pad6_no_space hx
  have hdot : splitOnce '.' (pad6 (t / 1000000) ++ '.' :: pad6 (t % 1000000))
      = some (pad6 (t / 1000000), pad6 (t % 1000000)) :=
    splitOnce_append _ (fun x hx => pad6_no_dot hx)
  have hA : t / 1000000 ≤ u64Max := le_trans (Nat.div_le_self t 1000000) ht
  have hB : t % 1000000 ≤ u64Max := by
    have h1 : t % 1000000 < 1000000 := Nat.mod_lt _ (by omega)
    unfold u64Max
    omega
  have hdm : t / 1000000 * 1000000 + t % 1000000 = t := by omega
  rw [hline]
  simp only [parseLine, hsp]
  rw [if_neg (by decide), if_neg (by decide), if_neg (by decide),
    if_pos (by decide)]
  simp only [hts, hdot, parseRadix_pad6 hA, parseRadix_pad6 hB,
    data_decode_written bs hb hblen, hdm]

/-- The written `R:` line is trim-stable. -/
theorem trimStr_writeR (len : Nat) (bs : List Nat) (hne : bs ≠ []) :
    trimStr (str "R: " ++ natToDec len ++ str " "
        ++ joinWith (str " ") (bs.map byteHex))
      = str "R: " ++ natToDec len ++ str " "
        ++ joinWith (str " ") (bs.map byteHex) := by
  obtain ⟨d, hd, hlast⟩ := getLast?_join_byteHex (str " ") bs hne
  have hJne : joinWith (str " ") (bs.map byteHex) ≠ [] := by
    intro h
    rw [h] at hlast
    simp at hlast
  apply trimStr_eq_self
  · intro c hc
    have h0 : (str "R: " ++ natToDec len ++ str " "
        ++ joinWith (str " ") (bs.map byteHex)).head? = some 'R' := rfl
    rw [h0] at hc
    obtain rfl : 'R' = c := by simpa using hc
    decide
  · intro c hc
    rw [List.getLast?_append_of_ne_nil _ hJne, hlast] at hc
    obtain rfl : digitChar d = c := by simpa using hc
    exact digitChar_not_ws hd

/-- The written `N:` line is trim-stable for a trim-stable non-empty name. -/
theorem trimStr_writeN (name : Str) (hname : trimStr name = name)
    (hne : name ≠ []) :
    trimStr (str "N: " ++ name) = str "N: " ++ name := by
  apply trimStr_eq_self
  · intro c hc
    have h0 : (str "N: " ++ name).head? = some 'N' := rfl
    rw [h0] at hc
    obtain rfl : 'N' = c := by simpa using hc
    decide
  · intro c hc
    rw [List.getLast?_append_of_ne_nil _ hne] at hc
    exact getLast_not_ws_of_trimStr_eq hname hc

/-- The written `I:` line is trim-stable. -/
theorem trimStr_writeI (b v p : Nat) :
    trimStr (str "I: " ++ natToHex b ++ str " " ++ natToHex v ++ str " "
        ++ natToHex p)
      = str "I: " ++ natToHex b ++ str " " ++ natToHex v ++ str " "
        ++ natToHex p := by
  apply trimStr_eq_self
  · intro c hc
    have h0 : (str "I: " ++ natToHex b ++ str " " ++ natToHex v ++ str " "
        ++ natToHex p).head? = some 'I' := rfl
    rw [h0] at hc
    obtain rfl : 'I' = c := by simpa using hc
    decide
  · intro c hc
    rw [List.getLast?_append_of_ne_nil _ natToHex_ne_nil] at hc
    exact getLast_not_ws_of_all natToHex_all_not_ws c hc

/-- The trimmed form of a written `E:` line is trim-stable. -/
theorem trimStr_writeEcore (e : Event) (hne : e.bytes ≠ []) :
    trimStr (writeELineCore e) = writeELineCore e := by
  obtain ⟨d, hd, hlast⟩ := getLast?_join_byteHex (str " ") e.bytes hne
  have hJne : joinWith (str " ") (e.bytes.map byteHex) ≠ [] := by
    intro h
    rw [h] at hlast
    simp at hlast
  apply trimStr_eq_self
  · intro c hc
    have h0 : (writeELineCore e).head? = some 'E' := rfl
    rw [h0] at hc
    obtain rfl : 'E' = c := by simpa using hc
    decide
  · intro c hc
    rw [writeELineCore, List.getLast?_append_of_ne_nil _ hJne, hlast] at hc
    obtain rfl : digitChar d = c := by simpa using hc
    exact digitChar_not_ws hd

/-- Trimming a written `E:` line removes exactly its trailing space. -/
theorem trimStr_writeEline (e : Event) (hne : e.bytes ≠ []) :
    trimStr (str "E: " ++ pad6 (e.usecs / 1000000) ++ str "."
        ++ pad6 (e.usecs % 1000000) ++ str " " ++ natToDec e.bytes.length
        ++ str " " ++ (e.bytes.map (fun b => byteHex b ++ [' '])).flatten)
      = writeELineCore e := by
  have hsplit : str "E: " ++ pad6 (e.usecs / 1000000) ++ str "."
      ++ pad6 (e.usecs % 1000000) ++ str " " ++ natToDec e.bytes.length
      ++ str " " ++ (e.bytes.map (fun b => byteHex b ++ [' '])).flatten
      = writeELineCore e ++ [' '] := by
    rw [flattenTrail_eq_join _ hne, writeELineCore]
    simp [List.append_assoc]
  rw [hsplit]
  exact trimStr_concat_space (trimStr_writeEcore e hne)

/-- Running the line loop overted written `E:` lines appends the events in
order. -/
theorem runLines_E_loop (evs : List Event) :
    ∀ st : ParseState,
      (∀ e ∈ evs, e.usecs ≤ u64Max ∧ e.bytes ≠ [] ∧ e.bytes.length ≤ u64Max
        ∧ ∀ b ∈ e.bytes, b < 256) →
      runLines st (evs.map writeELineCore)
        = .ok { st with events := st.events ++ evs } := by
  induction evs with
  | nil =>
    intro st _
    simp [runLines]
  | cons e es ih =>
    intro st hev
    obtain ⟨ht, hbne, hblen, hb⟩ := hev e (by simp)
    rw [List.map_cons, runLines, parseLine_E st e ht hblen hb]
    show runLines { st with events := st.events ++ [e] } (es.map writeELineCore) = _
    rw [ih _ (fun x hx => hev x (by simp [hx]))]
    simp [List.append_assoc]

/-! ## Claim C1: round-trip of the recording text format -/

/-- **C1**: for every capture the recorder writes — the `R:`, `N:`, `I:`
metadata lines followed by the `E:` event lines in the documented format —
parsing that text back with the strict recording parser yields an equal
`Recording`: the same device name, the same bus/vendor/product triple, the
same report-descriptor bytes, and the same ordered event list with
identical timestamps and bytes.  The hypotheses state that the capture is
one the recorder can produce: the name is a non-empty trimmed single line,
the three ids fit in `u16` (the replay parser reads them as `u16`), the
descriptor is non-empty (the recorder refuses empty descriptors) with
byte-sized entries, and every event has at least one `u8` byte, with
lengths and timestamps within `u64`/`usize` range. -/
theorem recording_roundtrip (r : Recording)
    (hname : trimStr r.name = r.name) (hname_ne : r.name ≠ [])
    (hbus : r.bustype < 65536) (hvid : r.vid < 65536) (hpid : r.pid < 65536)
    (hrd_ne : r.rdesc ≠ []) (hrd_b : ∀ b ∈ r.rdesc, b < 256)
    (hrd_len : r.rdesc.length ≤ u64Max)
    (hev : ∀ e ∈ r.events, e.usecs ≤ u64Max ∧ e.bytes ≠ []
      ∧ e.bytes.length ≤ u64Max ∧ ∀ b ∈ e.bytes, b < 256) :
    parseRecording (writeRecording r) = .ok r := by
  obtain ⟨name, bus, vid, pid, rdesc, events⟩ := r
  dsimp only at hname hname_ne hbus hvid hpid hrd_ne hrd_b hrd_len hev ⊢
  have hfil : (writeRecording ⟨name, bus, vid, pid, rdesc, events⟩).filter
      (fun l => !l.isEmpty && !(l.head? = some '#'))
      = writeRecording ⟨name, bus, vid, pid, rdesc, events⟩ := by
    apply List.filter_eq_self.mpr
    intro l hl
    rw [writeRecording] at hl
    rcases List.mem_append.mp hl with hl | hl
    · rcases List.mem_cons.mp hl with rfl | hl
      · rfl
      rcases List.mem_cons.mp hl with rfl | hl
      · rfl
      rcases List.mem_cons.mp hl with rfl | hl
      · rfl
      · simp at hl
    · obtain ⟨e, he, rfl⟩ := List.mem_map.mp hl
      rfl
  have hmap : (writeRecording ⟨name, bus, vid, pid, rdesc, events⟩).map trimStr
      = (str "R: " ++ natToDec rdesc.length ++ str " "
          ++ joinWith (str " ") (rdesc.map byteHex))
        :: (str "N: " ++ name)
        :: (str "I: " ++ natToHex bus ++ str " " ++ natToHex vid ++ str " "
          ++ natToHex pid)
        :: events.map writeELineCore := by
    rw [writeRecording]
    rw [List.map_append, List.map_cons, List.map_cons, List.map_cons,
      List.map_nil, List.map_map]
    rw [trimStr_writeR rdesc.length rdesc hrd_ne, trimStr_writeN name hname hname_ne,
      trimStr_writeI bus vid pid]
    have hE : events.map (trimStr ∘ fun e =>
        str "E: " ++ pad6 (e.usecs / 1000000) ++ str "."
          ++ pad6 (e.usecs % 1000000) ++ str " " ++ natToDec e.bytes.length
          ++ str " " ++ (e.bytes.map (fun b => byteHex b ++ [' '])).flatten)
        = events.map writeELineCore := by
      apply List.map_congr_left
      intro e he
      exact trimStr_writeEline e (hev e he).2.1
    rw [hE]
    rfl
  have hrun : runLines initParseState
      ((str "R: " ++ natToDec rdesc.length ++ str " "
          ++ joinWith (str " ") (rdesc.map byteHex))
        :: (str "N: " ++ name)
        :: (str "I: " ++ natToHex bus ++ str " " ++ natToHex vid ++ str " "
          ++ natToHex pid)
        :: events.map writeELineCore)
      = .ok ⟨some name, some (bus, vid, pid), some rdesc, events⟩ := by
    rw [runLines, parseLine_R initParseState rdesc hrd_b hrd_len]
    show runLines ⟨none, none, some rdesc, []⟩ _ = _
    rw [runLines, parseLine_N _ name]
    show runLines ⟨some name, none, some rdesc, []⟩ _ = _
    rw [runLines, parseLine_I _ bus vid pid hbus hvid hpid]
    show runLines ⟨some name, some (bus, vid, pid), some rdesc, []⟩ _ = _
    rw [runLines_E_loop events _ hev]
    simp
  rw [parseRecording, hfil, hmap, hrun]

/-- Witness for C1: a concrete two-event recording round-trips. -/
theorem recording_roundtrip_witness :
    parseRecording (writeRecording
        ⟨str "Foo Bar", 3, 1133, 50475, [5, 1], [⟨0, [1, 2]⟩, ⟨2123456, [3]⟩]⟩)
      = .ok ⟨str "Foo Bar", 3, 1133, 50475, [5, 1], [⟨0, [1, 2]⟩, ⟨2123456, [3]⟩]⟩ :=
  recording_roundtrip _ (by decide) (by decide) (by decide) (by decide)
    (by decide) (by decide) (by decide) (by decide) (by decide)

/-! ## Claim C9: zero-length ring-buffer events are rejected without effect -/

/-- **C9**: for every ring-buffer event whose `length` field is 0, the
event handler returns the nonzero status 1 immediately and the reassembly
buffer is left unchanged — no payload bytes are appended and no event is
emitted for that packet. -/
theorem zero_length_event_rejected (data buffer : List Nat)
    (hlen : data.length = 67) (hzero : data.getD 2 0 = 0) :
    event_handler data buffer = some (1, buffer, none) := by
  rcases data with _ | ⟨pc, data⟩
  · simp at hlen
  rcases data with _ | ⟨pn, data⟩
  · simp at hlen
  rcases data with _ | ⟨len, t⟩
  · simp at hlen
  simp only [List.length_cons] at hlen
  have ht : t.length = 64 := by omega
  simp only [List.getD_cons_succ, List.getD_cons_zero] at hzero
  subst hzero
  simp [event_handler, ht]

/-- Witness for C9: a concrete 67-byte ring-buffer event with `length = 0`. -/
theorem zero_length_event_rejected_witness :
    event_handler (3 :: 0 :: 0 :: List.replicate 64 9) [5, 6]
      = some (1, [5, 6], none) :=
  zero_length_event_rejected _ _ (by decide) (by decide)

/-! ## Claim C7: a `packet_number == 0` packet discards any prior assembly -/

/-- **C7**: whenever the ring-buffer event handler processes a packet with
`packet_number == 0` (one that passes the size and nonzero-length checks),
the assembly buffer is cleared before that packet's payload is appended, so
any previously accumulated incomplete assembly is discarded and the buffer
contents from then on depend only on the packets of the newly started
event: running the handler over the packet sequence from an arbitrary
pre-existing buffer gives exactly the result of running it from an empty
buffer. -/
theorem packet_zero_resets_buffer (d : List Nat) (rest : List (List Nat))
    (buffer : List Nat) (hlen : d.length = 67) (hnz : d.getD 2 0 ≠ 0)
    (hpn : d.getD 1 0 = 0) :
    runHandler (d :: rest) buffer = runHandler (d :: rest) [] := by
  rcases d with _ | ⟨pc, d⟩
  · simp at hlen
  rcases d with _ | ⟨pn, d⟩
  · simp at hlen
  rcases d with _ | ⟨len, t⟩
  · simp at hlen
  simp only [List.length_cons] at hlen
  have ht : t.length = 64 := by omega
  simp only [List.getD_cons_succ, List.getD_cons_zero] at hnz hpn
  subst hpn
  have key : event_handler (pc :: 0 :: len :: t) buffer
      = event_handler (pc :: 0 :: len :: t) [] := by
    simp [event_handler, ht, hnz]
  rw [runHandler, runHandler, key]

/-- Witness for C7: a stale partial buffer `[7, 7]` is discarded by a
concrete single-packet event whose `packet_number` is 0. -/
theorem packet_zero_resets_buffer_witness :
    runHandler [1 :: 0 :: 5 :: List.replicate 64 9] [7, 7]
      = runHandler [1 :: 0 :: 5 :: List.replicate 64 9] [] :=
  packet_zero_resets_buffer _ [] _ (by decide) (by decide) (by decide)

/-! ## Claim C2: three-packet reassembly of a 130-byte event -/

/-- **C2**: feeding the ring-buffer event handler three packets that all
carry `packet_count = 3` and `length = 130`, where packets 0 and 1 each
contribute a full 64-byte payload and the final packet 2 contributes
`130 - 2*64 = 2` bytes, emits exactly one completed event whose buffer has
length 130 and equals the concatenation of `payload[0..64]`,
`payload[64..128]`, `payload[128..130]`. -/
theorem reassembly_three_packets (q0 q1 q2 buffer : List Nat)
    (h0 : q0.length = 64) (h1 : q1.length = 64) (h2 : q2.length = 64) :
    runHandler [3 :: 0 :: 130 :: q0, 3 :: 1 :: 130 :: q1, 3 :: 2 :: 130 :: q2]
        buffer
      = some (q0 ++ q1 ++ q2.take 2, [q0 ++ q1 ++ q2.take 2])
    ∧ (q0 ++ q1 ++ q2.take 2).length = 130 := by
  have hwrap : (130 + (2 ^ 64 - 2 * PACKET_SIZE)) % 2 ^ 64 = 2 := by
    rw [PACKET_SIZE]; norm_num
  constructor
  · have hq0 : q0.take 64 = q0 := List.take_of_length_le (by omega)
    have hq1 : q1.take 64 = q1 := List.take_of_length_le (by omega)
    simp only [runHandler, event_handler, List.length_cons, h0, h1, h2,
      List.getD_cons_zero, List.getD_cons_succ, List.drop_succ_cons,
      List.drop_zero]
    norm_num [PACKET_SIZE, hwrap, hq0, hq1, List.append_assoc]
  · simp only [List.length_append, List.length_take, h0, h1, h2]
    omega

/-- Witness for C2: three concrete 64-byte payloads. -/
theorem reassembly_three_packets_witness :
    runHandler
        [3 :: 0 :: 130 :: List.replicate 64 1, 3 :: 1 :: 130 :: List.replicate 64 2,
          3 :: 2 :: 130 :: List.replicate 64 3] []
      = some
          (List.replicate 64 1 ++ List.replicate 64 2 ++ (List.replicate 64 3).take 2,
            [List.replicate 64 1 ++ List.replicate 64 2
              ++ (List.replicate 64 3).take 2])
    ∧ (List.replicate 64 1 ++ List.replicate 64 2
        ++ (List.replicate 64 3).take 2).length = 130 :=
  reassembly_three_packets _ _ _ [] (by decide) (by decide) (by decide)

/-! ## Claim C4: the kernel-tracing fallback chain -/

/-- **C4, counterexample**: the claim says that when the struct_ops load
fails *and* the tracing load also fails, the capture proceeds with the
direct-read source alone and is never aborted.  In the code the tracing
load error is propagated by the `?` operator out of `preload_bpf_tracer`
and out of the capture session: at this concrete input the session ends in
an error instead of `CaptureSource.directOnly`. -/
theorem tracing_failure_aborts_capture :
    select_capture_source
        (preload_bpf_tracer .always true (.error (str "struct_ops load failed"))
          (.error (str "tracing load failed")))
      = .error (str "tracing load failed")
    ∧ select_capture_source
        (preload_bpf_tracer .always true (.error (str "struct_ops load failed"))
          (.error (str "tracing load failed")))
      ≠ .ok .directOnly :=
  ⟨rfl, fun h => Except.noConfusion h⟩

/-- **C4, amended**: kernel-tracing source selection is a *two*-stage
non-fatal fallback: if loading the structured (struct_ops) kernel program
fails, the recorder falls back to the lower-level tracing-style program
without aborting; but if loading the tracing program also fails, that error
propagates (`?`) and aborts the capture session — the capture does *not*
fall back to the direct-read source alone.  (A struct_ops success never
consults the tracing loader.) -/
theorem bpf_fallback_chain (e1 e2 : Str) (t : Except Str Unit) :
    select_capture_source (preload_bpf_tracer .always true (.error e1) (.ok ()))
        = .ok .directWithTracing
    ∧ select_capture_source (preload_bpf_tracer .always true (.error e1) (.error e2))
        = .error e2
    ∧ select_capture_source (preload_bpf_tracer .always true (.ok ()) t)
        = .ok .directWithStructOps :=
  ⟨rfl, rfl, rfl⟩

/-- Witness for C4 (amended): concrete load outcomes. -/
theorem bpf_fallback_chain_witness :
    select_capture_source
        (preload_bpf_tracer .always true (.error (str "sop")) (.ok ()))
      = .ok .directWithTracing
    ∧ select_capture_source
        (preload_bpf_tracer .always true (.error (str "sop")) (.error (str "tr")))
      = .error (str "tr")
    ∧ select_capture_source
        (preload_bpf_tracer .always true (.ok ()) (.error (str "tr")))
      = .ok .directWithStructOps :=
  bpf_fallback_chain (str "sop") (str "tr") (.error (str "tr"))

/-! ## Claim C3: replay timing -/

/-- **C3, counterexample**: the claim states the replay loop computes each
event's target time as its recorded timestamp minus the first event's
timestamp (minus a start-time offset when given).  The loop actually uses
the raw recorded timestamp (`Duration::from_micros(e.usecs)`): for a
recording whose events are at 1 s and 3 s, the code's target for the second
event is 3 000 000 µs, not the 2 000 000 µs the claim's formula yields. -/
theorem replay_target_is_raw_timestamp :
    target_time ⟨3000000, [1]⟩
      ≠ spec_claimed_target_time ⟨3000000, [1]⟩ ⟨1000000, [1]⟩ 0 := by
  decide

/-- **C3, amended**: the replay loop computes each event's target time as
its *raw* recorded timestamp (events outside a requested start/stop window
having been filtered out beforehand, with timestamps unchanged), sleeps
until that target has elapsed since the start of the replay loop, and only
then writes the event's bytes; hence each write occurs no earlier than the
event's recorded timestamp measured from loop start — in particular, for
two events recorded at t=0 and t=2 000 000 µs, the second write occurs no
earlier than 2 seconds after loop start. -/
theorem replay_write_not_early (e : Event) (elapsed : Nat) :
    target_time e ≤ write_moment e elapsed
    ∧ 2000000 ≤ write_moment ⟨2000000, []⟩ elapsed := by
  constructor
  · simp only [write_moment]
    split <;> omega
  · simp only [write_moment, target_time]
    split <;> omega

/-- Witness for C3 (amended): the event at 2 000 000 µs reached with 0 µs
elapsed. -/
theorem replay_write_not_early_witness :
    target_time ⟨2000000, []⟩ ≤ write_moment ⟨2000000, []⟩ 0
    ∧ 2000000 ≤ write_moment ⟨2000000, []⟩ 0 :=
  replay_write_not_early ⟨2000000, []⟩ 0

/-! ## Claim C5: length-prefix validation -/

/-- **C5**: decoding a length-prefixed hex byte string (the payload of an
`R:` or `E:` line) whose length token parses and whose hex part decodes to
`bytes` succeeds with exactly those bytes if and only if the declared
length equals the decoded byte count; when the counts differ it fails with
the length-mismatch error (so no bytes are returned), and
`decode_length_prefixed_data` (`src/hidrecording.rs`) behaves identically
to `data_decode` (`hid-replay`). -/
theorem length_prefix_validation (s lenTok rest : Str) (n : Nat) (bytes : List Nat)
    (hsplit : splitOnce ' ' s = some (lenTok, rest))
    (hlen : parseRadix 10 u64Max lenTok = some n)
    (hhex : hexDecode (rest.filter (fun c => c ≠ ' ')) = some bytes) :
    (data_decode s = .ok (n, bytes) ↔ n = bytes.length)
    ∧ (n ≠ bytes.length →
        data_decode s
          = .error (str "Invalid data length: " ++ natToDec bytes.length
              ++ str " expected " ++ natToDec n))
    ∧ decode_length_prefixed_data s = data_decode s := by
  have hdd : data_decode s
      = if n ≠ bytes.length then
          .error (str "Invalid data length: " ++ natToDec bytes.length
            ++ str " expected " ++ natToDec n)
        else .ok (n, bytes) := by
    simp only [data_decode, hsplit, hlen, hhex]
  refine ⟨?_, ?_, rfl⟩
  · constructor
    · intro hok
      by_contra hne
      rw [hdd, if_pos hne] at hok
      exact absurd hok (by simp)
    · intro heq
      rw [hdd, if_neg (by omega)]
  · intro hne
    rw [hdd, if_pos hne]

/-- Witness for C5: `"3 aa bb"` declares 3 bytes but decodes 2, so the
decode fails with the mismatch error. -/
theorem length_prefix_validation_witness :
    (data_decode (str "3 aa bb") = .ok (3, [170, 187]) ↔ 3 = [170, 187].length)
    ∧ (3 ≠ [170, 187].length →
        data_decode (str "3 aa bb")
          = .error (str "Invalid data length: " ++ natToDec [170, 187].length
              ++ str " expected " ++ natToDec 3))
    ∧ decode_length_prefixed_data (str "3 aa bb") = data_decode (str "3 aa bb") :=
  length_prefix_validation (str "3 aa bb") (str "3") (str "aa bb") 3 [170, 187]
    (by decide) (by decide) (by decide)

/-! ## Claim C8: the `LogicalMaximum` display heuristic -/

/-- **C8**: when formatting a `LogicalMaximum` global item whose decoded
signed value is exactly −1, or is the maximum representable signed value
for its encoded width (1, 2 or 4 data bytes), both display sites show a
numeral equal to the value's unsigned (u32 bit-pattern) equivalent instead
of the signed value: `fmt_global_item` shows it in decimal and
`logical_range_to_str` in decimal or `0x`-prefixed hex.  The formatters are
pure functions of the value — the raw stored value is not altered. -/
theorem logical_maximum_display_heuristic (m : Int) (w : Nat)
    (h : m = -1 ∨ (w ∈ [1, 2, 4] ∧ m = 2 ^ (8 * w - 1) - 1)) :
    fmt_logical_maximum m
        = str "Logical Maximum (" ++ natToDec (i32AsU32 m) ++ str ")"
    ∧ (logical_range_max_str m = natToDec (i32AsU32 m)
        ∨ logical_range_max_str m = str "0x" ++ natToHex (i32AsU32 m)) := by
  rcases h with rfl | ⟨hw, rfl⟩
  · exact ⟨by decide, Or.inr (by decide)⟩
  · simp only [List.mem_cons, List.not_mem_nil, or_false] at hw
    rcases hw with rfl | rfl | rfl
    · exact ⟨by decide, Or.inl (by decide)⟩
    · exact ⟨by decide, Or.inl (by decide)⟩
    · exact ⟨by decide, Or.inr (by decide)⟩

/-- Witness for C8: the value −1 (encoded width 1). -/
theorem logical_maximum_display_heuristic_witness :
    fmt_logical_maximum (-1)
        = str "Logical Maximum (" ++ natToDec (i32AsU32 (-1)) ++ str ")"
    ∧ (logical_range_max_str (-1) = natToDec (i32AsU32 (-1))
        ∨ logical_range_max_str (-1) = str "0x" ++ natToHex (i32AsU32 (-1))) :=
  logical_maximum_display_heuristic (-1) 1 (Or.inl rfl)

/-! ## Claim C6: unknown line prefixes are strict-parse errors -/

/-- A line whose per-line step fails for every state makes the whole line
loop fail. -/
theorem runLines_error_of_mem {ls : List Str} {x : Str} (hx : x ∈ ls)
    (herr : ∀ st, ∃ m, parseLine st x = .error m) :
    ∀ st, ∃ msg, runLines st ls = .error msg := by
  induction ls with
  | nil => simp at hx
  | cons y ys ih =>
    intro st
    rcases List.mem_cons.mp hx with rfl | hmem
    · obtain ⟨m, hm⟩ := herr st
      exact ⟨m, by rw [runLines, hm]⟩
    · cases hy : parseLine st y with
      | error e => exact ⟨e, by rw [runLines, hy]⟩
      | ok st2 =>
        obtain ⟨msg, hmsg⟩ := ih hmem st2
        exact ⟨msg, by rw [runLines, hy]; exact hmsg⟩

/-- **C6**: for every recording text containing a non-empty, non-comment
line whose prefix (the token before the first space of the trimmed line,
or the whole trimmed line if it has no space) is not one of `N:`, `I:`,
`R:`, `E:`, strict parsing (`hid-replay/src/main.rs::parse`) fails: the
step for that line fails — with the `Invalid or unknown line:` error
naming the line — for every parser state, and the parse of the whole text
returns an error rather than silently ignoring the line. -/
theorem unknown_line_rejected (lines : List Str) (l : Str)
    (hmem : l ∈ lines) (hne : l ≠ []) (hns : l.head? ≠ some '#')
    (hpre : ∀ p rest, splitOnce ' ' (trimStr l) = some (p, rest) →
      p ≠ str "N:" ∧ p ≠ str "I:" ∧ p ≠ str "R:" ∧ p ≠ str "E:") :
    (∀ st, parseLine st (trimStr l)
        = .error (str "Invalid or unknown line: " ++ trimStr l))
    ∧ ∃ msg, parseRecording lines = .error msg := by
  have hstep : ∀ st, parseLine st (trimStr l)
      = .error (str "Invalid or unknown line: " ++ trimStr l) := by
    intro st
    cases hsp : splitOnce ' ' (trimStr l) with
    | none => simp only [parseLine, hsp]
    | some pr =>
      obtain ⟨p, rest⟩ := pr
      obtain ⟨hN, hI, hR, hE⟩ := hpre p rest hsp
      simp only [parseLine, hsp, if_neg hN, if_neg hI, if_neg hR, if_neg hE]
  refine ⟨hstep, ?_⟩
  have hfil : trimStr l ∈ (lines.filter
      (fun x => !x.isEmpty && !(x.head? = some '#'))).map trimStr := by
    refine List.mem_map_of_mem trimStr (List.mem_filter.mpr ⟨hmem, ?_⟩)
    simp [hne, hns]
  obtain ⟨msg, hmsg⟩ :=
    runLines_error_of_mem hfil (fun st => ⟨_, hstep st⟩) initParseState
  exact ⟨msg, by rw [parseRecording, hmsg]⟩

/-- Witness for C6: the single line `"X: 1"` is rejected by the strict
parser. -/
theorem unknown_line_rejected_witness :
    (∀ st, parseLine st (trimStr (str "X: 1"))
        = .error (str "Invalid or unknown line: " ++ trimStr (str "X: 1")))
    ∧ ∃ msg, parseRecording [str "X: 1"] = .error msg :=
  unknown_line_rejected [str "X: 1"] (str "X: 1") (by decide) (by decide)
    (by decide)
    (by
      intro p rest h
      have he : splitOnce ' ' (trimStr (str "X: 1")) = some (str "X:", str "1") := by
        decide
      rw [he] at h
      simp only [Option.some.injEq, Prod.mk.injEq] at h
      obtain ⟨hp, hr⟩ := h
      rw [← hp]
      exact ⟨by decide, by decide, by decide, by decide⟩)

/-! ## Claim C10: the number-array backend accepts all documented formats -/

theorem dropStart_eq_self {p : Char → Bool} {s : Str}
    (h : ∀ c, s.head? = some c → p c = false) : s.dropWhile p = s := by
  cases s with
  | nil => rfl
  | cons c t =>
    rw [List.dropWhile_cons, h c rfl]
    simp

theorem dropEnd_eq_self {p : Char → Bool} {s : Str}
    (h : ∀ c, s.getLast? = some c → p c = false) :
    (s.reverse.dropWhile p).reverse = s := by
  rcases List.eq_nil_or_concat s with rfl | ⟨t, d, hd⟩
  · rfl
  · rw [List.concat_eq_append] at hd
    subst hd
    have hpd : p d = false := h d (by rw [List.getLast?_concat])
    rw [List.reverse_append]
    simp [List.dropWhile_cons, hpd]

theorem dropEnd_concat {p : Char → Bool} {X : Str} {d : Char} (hd : p d = true)
    (hX : ∀ c, X.getLast? = some c → p c = false) :
    ((X ++ [d]).reverse.dropWhile p).reverse = X := by
  rw [List.reverse_append]
  simp only [List.reverse_singleton, List.singleton_append, List.dropWhile_cons,
    hd, if_true]
  exact dropEnd_eq_self hX

/-- Stripping leaves a string alone when neither end is whitespace or a
bracket. -/
theorem numberArrayStripped_eq_self {S : Str}
    (hhead : ∀ c, S.head? = some c → isRustWs c = false ∧ (c = '[' : Bool) = false)
    (hlast : ∀ c, S.getLast? = some c → isRustWs c = false ∧ (c = ']' : Bool) = false) :
    numberArrayStripped S = S := by
  rw [numberArrayStripped,
    trimStr_eq_self (fun c hc => (hhead c hc).1) (fun c hc => (hlast c hc).1),
    dropStart_eq_self (fun c hc => (hhead c hc).2)]
  exact dropEnd_eq_self (fun c hc => (hlast c hc).2)

/-- Stripping a bracketed string yields its inside. -/
theorem numberArrayStripped_bracketed {X : Str} (hne : X ≠ [])
    (hhead : ∀ c, X.head? = some c → (c = '[' : Bool) = false)
    (hlast : ∀ c, X.getLast? = some c → (c = ']' : Bool) = false) :
    numberArrayStripped ('[' :: (X ++ [']'])) = X := by
  have htrim : trimStr ('[' :: (X ++ [']'])) = '[' :: (X ++ [']']) := by
    apply trimStr_eq_self
    · intro c hc
      obtain rfl : '[' = c := by simpa using hc
      decide
    · intro c hc
      have hform : ('[' :: (X ++ [']'])) = ('[' :: X) ++ [']'] := by simp
      rw [hform, List.getLast?_concat] at hc
      obtain rfl : ']' = c := by simpa using hc
      decide
  obtain ⟨c0, t0, rfl⟩ := List.exists_cons_of_ne_nil hne
  rw [numberArrayStripped, htrim, List.dropWhile_cons]
  simp only [decide_eq_true_eq, if_pos rfl]
  rw [dropStart_eq_self (fun c hc => hhead c (by simpa using hc))]
  exact dropEnd_concat (by decide) hlast

theorem isSepChar_digitChar {d : Nat} (hd : d < 16) :
    isSepChar (digitChar d) = false := by
  have h1 := digitChar_not_ws hd
  have h2 := (digitChar_facts d hd).2.2.1
  simp [isSepChar, h1, h2]

theorem getLast?_byteHex (b : Nat) :
    (byteHex b).getLast? = some (digitChar (b % 16)) := by
  rw [byteHex, List.getLast?_cons_cons]
  rfl

theorem byteHex_mem_digit {b : Nat} {c : Char} (hc : c ∈ byteHex b) :
    ∃ d, d < 16 ∧ c = digitChar d := by
  rw [byteHex] at hc
  simp only [List.mem_cons, List.not_mem_nil, or_false] at hc
  rcases hc with rfl | rfl
  · exact ⟨b / 16 % 16, Nat.mod_lt _ (by omega), rfl⟩
  · exact ⟨b % 16, Nat.mod_lt _ (by omega), rfl⟩

theorem renderCont_mem {bs : List Nat} {c : Char} (hc : c ∈ renderCont bs) :
    ∃ d, d < 16 ∧ c = digitChar d := by
  rw [renderCont] at hc
  obtain ⟨x, hx, hcx⟩ := List.mem_flatten.mp hc
  obtain ⟨b, _, rfl⟩ := List.mem_map.mp hx
  exact byteHex_mem_digit hcx

theorem renderCont_no_sep (bs : List Nat) : (renderCont bs).any isSepChar = false := by
  rw [List.any_eq_false]
  intro c hc
  obtain ⟨d, hd, rfl⟩ := renderCont_mem hc
  simp [isSepChar_digitChar hd]

theorem renderCont_cons (b : Nat) (bt : List Nat) :
    renderCont (b :: bt) = byteHex b ++ renderCont bt := by
  rw [renderCont, renderCont, List.map_cons, List.flatten_cons]

theorem renderCont_even (bs : List Nat) : (renderCont bs).length % 2 = 0 := by
  induction bs with
  | nil => rfl
  | cons b bt ih =>
    rw [renderCont_cons, List.length_append, byteHex, List.length_cons,
      List.length_cons, List.length_nil]
    omega

theorem chunkPairs_renderCont (bs : List Nat) :
    chunkPairs (renderCont bs) = bs.map byteHex := by
  induction bs with
  | nil => rfl
  | cons b bt ih =>
    rw [renderCont_cons, byteHex]
    show chunkPairs (digitChar (b / 16 % 16) :: digitChar (b % 16) :: renderCont bt)
      = byteHex b :: bt.map byteHex
    rw [chunkPairs, ih, byteHex]

theorem stripPre_none_of_digits {s : Str}
    (h : ∀ c ∈ s, ∃ d, d < 16 ∧ c = digitChar d) :
    stripPre (str "0x") s = none ∧ stripPre (str "0X") s = none := by
  cases s with
  | nil => exact ⟨rfl, rfl⟩
  | cons c1 rest =>
    cases rest with
    | nil =>
      refine ⟨?_, ?_⟩
      · rw [stripPre, show str "0x" = ['0', 'x'] from rfl]
        simp
      · rw [stripPre, show str "0X" = ['0', 'X'] from rfl]
        simp
    | cons c2 rest2 =>
      obtain ⟨d2, hd2, rfl⟩ := h c2 (by simp)
      have hx := (digitChar_facts d2 hd2).2.2.2.2.2.2.2.2.1
      have hX := (digitChar_facts d2 hd2).2.2.2.2.2.2.2.2.2.1
      have htake : ∀ c cx : Char,
          List.take (List.length ['0', cx]) (c1 :: digitChar d2 :: rest2)
            = [c1, digitChar d2] := fun c cx => rfl
      refine ⟨?_, ?_⟩
      · rw [stripPre, show str "0x" = ['0', 'x'] from rfl, htake '0' 'x',
          if_neg ?_]
        intro hcontra
        rw [List.cons.injEq, List.cons.injEq] at hcontra
        exact hx hcontra.2.1
      · rw [stripPre, show str "0X" = ['0', 'X'] from rfl, htake '0' 'X',
          if_neg ?_]
        intro hcontra
        rw [List.cons.injEq, List.cons.injEq] at hcontra
        exact hX hcontra.2.1

theorem stripHexMarker_of_digits {s : Str}
    (h : ∀ c ∈ s, ∃ d, d < 16 ∧ c = digitChar d) : stripHexMarker s = s := by
  obtain ⟨h1, h2⟩ := stripPre_none_of_digits h
  rw [stripHexMarker, h1, h2]

theorem parseRadix_byteHex {b : Nat} (hb : b < 256) :
    parseRadix 16 255 (byteHex b) = some b := by
  have h1 : b / 16 % 16 < 16 := Nat.mod_lt _ (by omega)
  have h2 : b % 16 < 16 := Nat.mod_lt _ (by omega)
  have hplus : stripLeadingPlus (byteHex b) = byteHex b := by
    rw [byteHex, stripLeadingPlus,
      if_neg ((digitChar_facts _ h1).2.2.2.2.2.2.2.1)]
  have hval : digitsVal 16 (byteHex b) = some b := by
    rw [byteHex, digitsVal, List.foldl_cons, List.foldl_cons, List.foldl_nil]
    rw [show dvStep 16 (some 0) (digitChar (b / 16 % 16)) = some (b / 16 % 16) by
      simp [dvStep, hexDigit?_digitChar h1, h1]]
    rw [show dvStep 16 (some (b / 16 % 16)) (digitChar (b % 16))
        = some (b / 16 % 16 * 16 + b % 16) by
      simp [dvStep, hexDigit?_digitChar h2, h2]]
    congr 1
    omega
  rw [parseRadix]
  simp only [hplus, hval]
  rw [if_neg (by rw [byteHex]; simp), if_pos (by omega)]

theorem trimStr_byteHex (b : Nat) : trimStr (byteHex b) = byteHex b := by
  apply trimStr_eq_self
  · intro c hc
    obtain rfl : digitChar (b / 16 % 16) = c := by
      rw [byteHex] at hc
      simpa using hc
    exact digitChar_not_ws (Nat.mod_lt _ (by omega))
  · intro c hc
    rw [getLast?_byteHex] at hc
    obtain rfl : digitChar (b % 16) = c := by simpa using hc
    exact digitChar_not_ws (Nat.mod_lt _ (by omega))

theorem numberArrayToken_byteHex {b : Nat} (hb : b < 256) :
    numberArrayToken (byteHex b) = some b := by
  rw [numberArrayToken, trimStr_byteHex,
    stripHexMarker_of_digits (fun c hc => byteHex_mem_digit hc)]
  exact parseRadix_byteHex hb

theorem numberArrayToken_0x {b : Nat} (hb : b < 256) :
    numberArrayToken (str "0x" ++ byteHex b) = some b := by
  have htrim : trimStr (str "0x" ++ byteHex b) = str "0x" ++ byteHex b := by
    apply trimStr_eq_self
    · intro c hc
      have h0 : (str "0x" ++ byteHex b).head? = some '0' := rfl
      rw [h0] at hc
      obtain rfl : '0' = c := by simpa using hc
      decide
    · intro c hc
      rw [List.getLast?_append_of_ne_nil _ (by rw [byteHex]; simp),
        getLast?_byteHex] at hc
      obtain rfl : digitChar (b % 16) = c := by simpa using hc
      exact digitChar_not_ws (Nat.mod_lt _ (by omega))
  have hs : stripPre (str "0x") (str "0x" ++ byteHex b) = some (byteHex b) := rfl
  rw [numberArrayToken, htrim, stripHexMarker, hs]
  exact parseRadix_byteHex hb

theorem mapMOpt_map_tok {α : Type} {tok : α → Str} {f : Str → Option α}
    (bs : List α) (h : ∀ b ∈ bs, f (tok b) = some b) :
    mapMOpt f (bs.map tok) = some bs := by
  induction bs with
  | nil => rfl
  | cons b bt ih =>
    rw [List.map_cons, mapMOpt, h b (by simp), ih (fun x hx => h x (by simp [hx]))]

theorem splitFilter_space (tok : Nat → Str)
    (hfree : ∀ b, ∀ x ∈ tok b, isSepChar x = false) (hne : ∀ b, tok b ≠ []) :
    ∀ bs : List Nat, bs ≠ [] →
      (splitAll isSepChar (joinWith (str " ") (bs.map tok))).filter
          (fun s => (s ≠ [] : Bool))
        = bs.map tok := by
  intro bs
  induction bs with
  | nil => intro h; exact absurd rfl h
  | cons b bt ih =>
    intro _
    cases bt with
    | nil =>
      show (splitAll isSepChar (tok b)).filter (fun s => (s ≠ [] : Bool)) = [tok b]
      rw [splitAll_no_sep (hfree b)]
      simp [hne b]
    | cons b2 bt2 =>
      show (splitAll isSepChar (tok b ++ str " "
          ++ joinWith (str " ") ((b2 :: bt2).map tok))).filter
          (fun s => (s ≠ [] : Bool)) = tok b :: (b2 :: bt2).map tok
      have hform : tok b ++ str " " ++ joinWith (str " ") ((b2 :: bt2).map tok)
          = tok b ++ ' ' :: joinWith (str " ") ((b2 :: bt2).map tok) := by
        rw [str_space]
        simp [List.append_assoc]
      rw [hform, splitAll_append _ (hfree b) (by decide), List.filter_cons]
      rw [if_pos (by simp [hne b])]
      rw [ih (by simp)]

theorem splitFilter_comma (tok : Nat → Str)
    (hfree : ∀ b, ∀ x ∈ tok b, isSepChar x = false) (hne : ∀ b, tok b ≠ []) :
    ∀ bs : List Nat, bs ≠ [] →
      (splitAll isSepChar (joinWith (str ", ") (bs.map tok))).filter
          (fun s => (s ≠ [] : Bool))
        = bs.map tok := by
  intro bs
  induction bs with
  | nil => intro h; exact absurd rfl h
  | cons b bt ih =>
    intro _
    cases bt with
    | nil =>
      show (splitAll isSepChar (tok b)).filter (fun s => (s ≠ [] : Bool)) = [tok b]
      rw [splitAll_no_sep (hfree b)]
      simp [hne b]
    | cons b2 bt2 =>
      show (splitAll isSepChar (tok b ++ str ", "
          ++ joinWith (str ", ") ((b2 :: bt2).map tok))).filter
          (fun s => (s ≠ [] : Bool)) = tok b :: (b2 :: bt2).map tok
      have hform : tok b ++ str ", " ++ joinWith (str ", ") ((b2 :: bt2).map tok)
          = tok b ++ ',' :: (' ' :: joinWith (str ", ") ((b2 :: bt2).map tok)) := by
        rw [show str ", " = [',', ' '] from rfl]
        simp [List.append_assoc]
      rw [hform, splitAll_append _ (hfree b) (by decide)]
      have hsp : splitAll isSepChar (' ' :: joinWith (str ", ") ((b2 :: bt2).map tok))
          = [] :: splitAll isSepChar (joinWith (str ", ") ((b2 :: bt2).map tok)) := by
        have h := splitAll_append (p := isSepChar) (t := ([] : Str)) (c := ' ')
          (joinWith (str ", ") ((b2 :: bt2).map tok)) (by simp) (by decide)
        simpa using h
      rw [hsp, List.filter_cons, List.filter_cons]
      rw [if_pos (by simp [hne b]), if_neg (by simp)]
      rw [ih (by simp)]

theorem numberArrayDecode_sep_master {S D : Str} {bs : List Nat}
    (hstrip : numberArrayStripped S = D) (hsep : D.any isSepChar = true)
    (hrest : mapMOpt numberArrayToken
        ((splitAll isSepChar D).filter (fun s => (s ≠ [] : Bool))) = some bs) :
    numberArrayDecode S = some bs := by
  rw [numberArrayDecode]
  simp only [hstrip, hsep, if_true]
  exact hrest

theorem numberArrayDecode_cont_master {S D : Str} {bs : List Nat}
    (hstrip : numberArrayStripped S = D) (hsep : D.any isSepChar = false)
    (heven : (stripHexMarker D).length % 2 = 0)
    (hrest : mapMOpt (parseRadix 16 255) (chunkPairs (stripHexMarker D)) = some bs) :
    numberArrayDecode S = some bs := by
  rw [numberArrayDecode]
  simp only [hstrip, hsep, if_false, Bool.false_eq_true]
  rw [if_neg (by omega)]
  exact hrest

theorem numberArrayStripped_digits {S : Str}
    (h : ∀ c ∈ S, ∃ d, d < 16 ∧ c = digitChar d) :
    numberArrayStripped S = S := by
  apply numberArrayStripped_eq_self
  · intro c hc
    obtain ⟨d, hd, rfl⟩ := h c (mem_of_head?Str hc)
    exact ⟨digitChar_not_ws hd,
      decide_eq_false ((digitChar_facts d hd).2.2.2.2.1)⟩
  · intro c hc
    obtain ⟨d, hd, rfl⟩ := h c (mem_of_getLast?Str hc)
    exact ⟨digitChar_not_ws hd,
      decide_eq_false ((digitChar_facts d hd).2.2.2.2.2.1)⟩

/-- Any input that strips to the continuous hex rendering decodes to the
bytes. -/
theorem numberArrayDecode_of_stripped_cont {S : Str} {cs : List Nat}
    (hcs : ∀ b ∈ cs, b < 256) (hstrip : numberArrayStripped S = renderCont cs) :
    numberArrayDecode S = some cs := by
  have hmark := stripHexMarker_of_digits (s := renderCont cs)
    (fun c hc => renderCont_mem hc)
  apply numberArrayDecode_cont_master hstrip (renderCont_no_sep cs)
  · rw [hmark]
    exact renderCont_even cs
  · rw [hmark, chunkPairs_renderCont]
    exact mapMOpt_map_tok cs (fun b hbm => parseRadix_byteHex (hcs b hbm))

/-- Any input that strips to a `0x`-prefixed continuous hex rendering
decodes to the bytes. -/
theorem numberArrayDecode_of_stripped_cont0x {S : Str} {cs : List Nat}
    (hcs : ∀ b ∈ cs, b < 256)
    (hstrip : numberArrayStripped S = str "0x" ++ renderCont cs) :
    numberArrayDecode S = some cs := by
  have hmark : stripHexMarker (str "0x" ++ renderCont cs) = renderCont cs := by
    rw [stripHexMarker,
      show stripPre (str "0x") (str "0x" ++ renderCont cs)
        = some (renderCont cs) from rfl]
  have hsep : (str "0x" ++ renderCont cs).any isSepChar = false := by
    rw [List.any_append, renderCont_no_sep cs,
      show (str "0x").any isSepChar = false from by decide]
    rfl
  apply numberArrayDecode_cont_master hstrip hsep
  · rw [hmark]
    exact renderCont_even cs
  · rw [hmark, chunkPairs_renderCont]
    exact mapMOpt_map_tok cs (fun b hbm => parseRadix_byteHex (hcs b hbm))

/-- Any input that strips to a `0X`-prefixed continuous hex rendering
decodes to the bytes. -/
theorem numberArrayDecode_of_stripped_cont0X {S : Str} {cs : List Nat}
    (hcs : ∀ b ∈ cs, b < 256)
    (hstrip : numberArrayStripped S = str "0X" ++ renderCont cs) :
    numberArrayDecode S = some cs := by
  have hmark : stripHexMarker (str "0X" ++ renderCont cs) = renderCont cs := by
    rw [stripHexMarker,
      show stripPre (str "0x") (str "0X" ++ renderCont cs) = none from rfl,
      show stripPre (str "0X") (str "0X" ++ renderCont cs)
        = some (renderCont cs) from rfl]
  have hsep : (str "0X" ++ renderCont cs).any isSepChar = false := by
    rw [List.any_append, renderCont_no_sep cs,
      show (str "0X").any isSepChar = false from by decide]
    rfl
  apply numberArrayDecode_cont_master hstrip hsep
  · rw [hmark]
    exact renderCont_even cs
  · rw [hmark, chunkPairs_renderCont]
    exact mapMOpt_map_tok cs (fun b hbm => parseRadix_byteHex (hcs b hbm))

/-- A separator-joined rendering of digit-ended, digit-headed tokens is
left alone by the strip phase. -/
theorem numberArrayStripped_join_tok (sep : Str) (tok : Nat → Str)
    (bs : List Nat) (hne : bs ≠ [])
    (hhead : ∀ b, ∃ c, (tok b).head? = some c ∧ isRustWs c = false
      ∧ (c = '[' : Bool) = false)
    (hlast : ∀ b, ∃ d, d < 16 ∧ (tok b).getLast? = some (digitChar d)) :
    numberArrayStripped (joinWith sep (bs.map tok))
      = joinWith sep (bs.map tok) := by
  obtain ⟨b1, bt, rfl⟩ := List.exists_cons_of_ne_nil hne
  obtain ⟨c1, hc1, hw1, hbr1⟩ := hhead b1
  have htokne : tok b1 ≠ [] := by
    intro h
    rw [h] at hc1
    simp at hc1
  apply numberArrayStripped_eq_self
  · intro c hc
    rw [List.map_cons, head?_joinWith_cons sep _ _ htokne, hc1] at hc
    obtain rfl : c1 = c := by simpa using hc
    exact ⟨hw1, hbr1⟩
  · intro c hc
    obtain ⟨d, hd, hl⟩ := getLast?_joinWith_tok sep tok hlast (b1 :: bt) (by simp)
    rw [hl] at hc
    obtain rfl : digitChar d = c := by simpa using hc
    exact ⟨digitChar_not_ws hd,
      decide_eq_false ((digitChar_facts d hd).2.2.2.2.2.1)⟩

/-- Digit-only strings have no bracket characters at either end. -/
theorem digits_nobracket {S : Str}
    (h : ∀ c ∈ S, ∃ d, d < 16 ∧ c = digitChar d) :
    (∀ c, S.head? = some c → (c = '[' : Bool) = false)
    ∧ (∀ c, S.getLast? = some c → (c = ']' : Bool) = false) := by
  constructor
  · intro c hc
    obtain ⟨d, hd, rfl⟩ := h c (mem_of_head?Str hc)
    exact decide_eq_false ((digitChar_facts d hd).2.2.2.2.1)
  · intro c hc
    obtain ⟨d, hd, rfl⟩ := h c (mem_of_getLast?Str hc)
    exact decide_eq_false ((digitChar_facts d hd).2.2.2.2.2.1)

/-- **C10**: for every byte sequence, `NumberArrayBackend` parses the
whitespace/comma-separated rendering of the bytes as two-hex-digit tokens
and the continuous concatenated hex-string rendering of the same bytes to
the same report-descriptor byte vector — with or without a `0x`/`0X`
prefix and with or without surrounding brackets. -/
theorem numberarray_formats_agree (bs : List Nat) (hb : ∀ b ∈ bs, b < 256) :
    numberArrayDecode (renderSpaceSep bs) = some bs
    ∧ numberArrayDecode (renderCommaSep bs) = some bs
    ∧ numberArrayDecode ('[' :: (renderCommaSep bs ++ [']'])) = some bs
    ∧ numberArrayDecode (render0xSpaceSep bs) = some bs
    ∧ numberArrayDecode (renderCont bs) = some bs
    ∧ numberArrayDecode (str "0x" ++ renderCont bs) = some bs
    ∧ numberArrayDecode (str "0X" ++ renderCont bs) = some bs
    ∧ numberArrayDecode ('[' :: (renderCont bs ++ [']'])) = some bs := by
  have hbyte_head : ∀ b : Nat, ∃ c, (byteHex b).head? = some c
      ∧ isRustWs c = false ∧ (c = '[' : Bool) = false := by
    intro b
    have hd : b / 16 % 16 < 16 := Nat.mod_lt _ (by omega)
    exact ⟨digitChar (b / 16 % 16), rfl, digitChar_not_ws hd,
      decide_eq_false ((digitChar_facts _ hd).2.2.2.2.1)⟩
  have hbyte_last : ∀ b : Nat, ∃ d, d < 16
      ∧ (byteHex b).getLast? = some (digitChar d) :=
    fun b => ⟨b % 16, Nat.mod_lt _ (by omega), getLast?_byteHex b⟩
  have h0x_head : ∀ b : Nat, ∃ c, (str "0x" ++ byteHex b).head? = some c
      ∧ isRustWs c = false ∧ (c = '[' : Bool) = false :=
    fun b => ⟨'0', rfl, by decide, by decide⟩
  have h0x_last : ∀ b : Nat, ∃ d, d < 16
      ∧ (str "0x" ++ byteHex b).getLast? = some (digitChar d) := by
    intro b
    refine ⟨b % 16, Nat.mod_lt _ (by omega), ?_⟩
    rw [List.getLast?_append_of_ne_nil _ (by rw [byteHex]; simp)]
    exact getLast?_byteHex b
  have hbyte_free : ∀ b : Nat, ∀ x ∈ byteHex b, isSepChar x = false := by
    intro b x hx
    obtain ⟨d, hd, rfl⟩ := byteHex_mem_digit hx
    exact isSepChar_digitChar hd
  have hbyte_ne : ∀ b : Nat, byteHex b ≠ [] := by
    intro b
    rw [byteHex]
    simp
  have h0x_free : ∀ b : Nat, ∀ x ∈ str "0x" ++ byteHex b, isSepChar x = false := by
    intro b x hx
    rcases List.mem_append.mp hx with hx | hx
    · rw [show str "0x" = ['0', 'x'] from rfl] at hx
      simp only [List.mem_cons, List.not_mem_nil, or_false] at hx
      rcases hx with rfl | rfl
      · decide
      · decide
    · exact hbyte_free b x hx
  have h0x_ne : ∀ b : Nat, str "0x" ++ byteHex b ≠ [] := by
    intro b
    simp [str]
  have hcont : numberArrayDecode (renderCont bs) = some bs :=
    numberArrayDecode_of_stripped_cont hb
      (numberArrayStripped_digits (fun c hc => renderCont_mem hc))
  have h0xcont : numberArrayDecode (str "0x" ++ renderCont bs) = some bs := by
    apply numberArrayDecode_of_stripped_cont0x hb
    apply numberArrayStripped_eq_self
    · intro c hc
      have h0 : (str "0x" ++ renderCont bs).head? = some '0' := rfl
      rw [h0] at hc
      obtain rfl : '0' = c := by simpa using hc
      exact ⟨by decide, by decide⟩
    · intro c hc
      rcases bs with _ | ⟨x, xt⟩
      · have h1 : (str "0x" ++ renderCont ([] : List Nat)).getLast? = some 'x' := rfl
        rw [h1] at hc
        obtain rfl : 'x' = c := by simpa using hc
        exact ⟨by decide, by decide⟩
      · have hcne : renderCont (x :: xt) ≠ [] := by
          rw [renderCont_cons, byteHex]
          simp
        rw [List.getLast?_append_of_ne_nil _ hcne] at hc
        obtain ⟨d, hd, rfl⟩ := renderCont_mem (mem_of_getLast?Str hc)
        exact ⟨digitChar_not_ws hd,
          decide_eq_false ((digitChar_facts d hd).2.2.2.2.2.1)⟩
  have h0Xcont : numberArrayDecode (str "0X" ++ renderCont bs) = some bs := by
    apply numberArrayDecode_of_stripped_cont0X hb
    apply numberArrayStripped_eq_self
    · intro c hc
      have h0 : (str "0X" ++ renderCont bs).head? = some '0' := rfl
      rw [h0] at hc
      obtain rfl : '0' = c := by simpa using hc
      exact ⟨by decide, by decide⟩
    · intro c hc
      rcases bs with _ | ⟨x, xt⟩
      · have h1 : (str "0X" ++ renderCont ([] : List Nat)).getLast? = some 'X' := rfl
        rw [h1] at hc
        obtain rfl : 'X' = c := by simpa using hc
        exact ⟨by decide, by decide⟩
      · have hcne : renderCont (x :: xt) ≠ [] := by
          rw [renderCont_cons, byteHex]
          simp
        rw [List.getLast?_append_of_ne_nil _ hcne] at hc
        obtain ⟨d, hd, rfl⟩ := renderCont_mem (mem_of_getLast?Str hc)
        exact ⟨digitChar_not_ws hd,
          decide_eq_false ((digitChar_facts d hd).2.2.2.2.2.1)⟩
  have hbrcont : numberArrayDecode ('[' :: (renderCont bs ++ [']'])) = some bs := by
    rcases bs with _ | ⟨x, xt⟩
    · decide
    · have hcne : renderCont (x :: xt) ≠ [] := by
        rw [renderCont_cons, byteHex]
        simp
      obtain ⟨hh, hl⟩ := digits_nobracket (S := renderCont (x :: xt))
        (fun c hc => renderCont_mem hc)
      apply numberArrayDecode_of_stripped_cont hb
      rw [numberArrayStripped_bracketed hcne hh hl]
  rcases bs with _ | ⟨b1, bt⟩
  · exact ⟨by decide, by decide, by decide, by decide, hcont, h0xcont,
      h0Xcont, hbrcont⟩
  rcases bt with _ | ⟨b2, bt2⟩
  · -- exactly one byte: every rendering takes the continuous path
    have hbhx : renderCont [b1] = byteHex b1 := by simp [renderCont]
    have h1 : numberArrayDecode (renderSpaceSep [b1]) = some [b1] := by
      have heq : renderSpaceSep [b1] = renderCont [b1] := by
        rw [renderSpaceSep, hbhx]
        rfl
      rw [heq]
      exact hcont
    have h2 : numberArrayDecode (renderCommaSep [b1]) = some [b1] := by
      have heq : renderCommaSep [b1] = renderCont [b1] := by
        rw [renderCommaSep, hbhx]
        rfl
      rw [heq]
      exact hcont
    have h3 : numberArrayDecode ('[' :: (renderCommaSep [b1] ++ [']']))
        = some [b1] := by
      have heq : renderCommaSep [b1] = byteHex b1 := rfl
      rw [heq]
      obtain ⟨hh, hl⟩ := digits_nobracket
        (fun c hc => byteHex_mem_digit (b := b1) hc)
      apply numberArrayDecode_of_stripped_cont hb
      rw [numberArrayStripped_bracketed (hbyte_ne b1) hh hl]
      exact hbhx.symm
    have h4 : numberArrayDecode (render0xSpaceSep [b1]) = some [b1] := by
      have heq : render0xSpaceSep [b1] = str "0x" ++ byteHex b1 := rfl
      rw [heq]
      apply numberArrayDecode_of_stripped_cont0x hb
      have hself : numberArrayStripped (str "0x" ++ byteHex b1)
          = str "0x" ++ byteHex b1 := by
        apply numberArrayStripped_eq_self
        · intro c hc
          have h0 : (str "0x" ++ byteHex b1).head? = some '0' := rfl
          rw [h0] at hc
          obtain rfl : '0' = c := by simpa using hc
          exact ⟨by decide, by decide⟩
        · intro c hc
          rw [List.getLast?_append_of_ne_nil _ (hbyte_ne b1),
            getLast?_byteHex] at hc
          obtain rfl : digitChar (b1 % 16) = c := by simpa using hc
          have hd : b1 % 16 < 16 := Nat.mod_lt _ (by omega)
          exact ⟨digitChar_not_ws hd,
            decide_eq_false ((digitChar_facts _ hd).2.2.2.2.2.1)⟩
      rw [hself, hbhx]
    exact ⟨h1, h2, h3, h4, hcont, h0xcont, h0Xcont, hbrcont⟩
  · -- at least two bytes: the separated renderings take the token path
    have hlen2 : (b1 :: b2 :: bt2) ≠ [] := by simp
    have hsp_space : (joinWith (str " ")
        ((b1 :: b2 :: bt2).map byteHex)).any isSepChar = true := by
      apply List.any_eq_true.mpr
      refine ⟨' ', ?_, by decide⟩
      show ' ' ∈ byteHex b1 ++ str " " ++ joinWith (str " ") ((b2 :: bt2).map byteHex)
      rw [str_space]
      simp
    have hrest_space : mapMOpt numberArrayToken
        ((splitAll isSepChar (joinWith (str " ")
          ((b1 :: b2 :: bt2).map byteHex))).filter (fun s => (s ≠ [] : Bool)))
        = some (b1 :: b2 :: bt2) := by
      rw [splitFilter_space byteHex hbyte_free hbyte_ne _ hlen2]
      exact mapMOpt_map_tok _ (fun x hx => numberArrayToken_byteHex (hb x hx))
    have hsp_comma : (joinWith (str ", ")
        ((b1 :: b2 :: bt2).map byteHex)).any isSepChar = true := by
      apply List.any_eq_true.mpr
      refine ⟨',', ?_, by decide⟩
      show ',' ∈ byteHex b1 ++ str ", "
        ++ joinWith (str ", ") ((b2 :: bt2).map byteHex)
      rw [show str ", " = [',', ' '] from rfl]
      simp
    have hrest_comma : mapMOpt numberArrayToken
        ((splitAll isSepChar (joinWith (str ", ")
          ((b1 :: b2 :: bt2).map byteHex))).filter (fun s => (s ≠ [] : Bool)))
        = some (b1 :: b2 :: bt2) := by
      rw [splitFilter_comma byteHex hbyte_free hbyte_ne _ hlen2]
      exact mapMOpt_map_tok _ (fun x hx => numberArrayToken_byteHex (hb x hx))
    have h1 : numberArrayDecode (renderSpaceSep (b1 :: b2 :: bt2))
        = some (b1 :: b2 :: bt2) := by
      show numberArrayDecode (joinWith (str " ") ((b1 :: b2 :: bt2).map byteHex)) = _
      exact numberArrayDecode_sep_master
        (numberArrayStripped_join_tok _ byteHex _ hlen2 hbyte_head hbyte_last)
        hsp_space hrest_space
    have h2 : numberArrayDecode (renderCommaSep (b1 :: b2 :: bt2))
        = some (b1 :: b2 :: bt2) := by
      show numberArrayDecode (joinWith (str ", ") ((b1 :: b2 :: bt2).map byteHex)) = _
      exact numberArrayDecode_sep_master
        (numberArrayStripped_join_tok _ byteHex _ hlen2 hbyte_head hbyte_last)
        hsp_comma hrest_comma
    have hcsne : joinWith (str ", ") ((b1 :: b2 :: bt2).map byteHex) ≠ [] := by
      intro hnil
      have hh := head?_joinWith_cons (str ", ") (byteHex b1)
        ((b2 :: bt2).map byteHex) (hbyte_ne b1)
      rw [show (joinWith (str ", ") (byteHex b1 :: (b2 :: bt2).map byteHex))
          = joinWith (str ", ") ((b1 :: b2 :: bt2).map byteHex) from rfl,
        hnil] at hh
      rw [byteHex] at hh
      simp at hh
    have h3 : numberArrayDecode
        ('[' :: (renderCommaSep (b1 :: b2 :: bt2) ++ [']']))
        = some (b1 :: b2 :: bt2) := by
      show numberArrayDecode ('[' :: (joinWith (str ", ")
        ((b1 :: b2 :: bt2).map byteHex) ++ [']'])) = _
      refine numberArrayDecode_sep_master ?_ hsp_comma hrest_comma
      apply numberArrayStripped_bracketed hcsne
      · intro c hc
        rw [show (joinWith (str ", ") ((b1 :: b2 :: bt2).map byteHex))
            = joinWith (str ", ") (byteHex b1 :: (b2 :: bt2).map byteHex) from rfl,
          head?_joinWith_cons _ _ _ (hbyte_ne b1)] at hc
        obtain ⟨c1, hc1, _, hbr1⟩ := hbyte_head b1
        rw [hc1] at hc
        obtain rfl : c1 = c := by simpa using hc
        exact hbr1
      · intro c hc
        obtain ⟨d, hd, hl⟩ := getLast?_joinWith_tok (str ", ") byteHex
          hbyte_last (b1 :: b2 :: bt2) hlen2
        rw [hl] at hc
        obtain rfl : digitChar d = c := by simpa using hc
        exact decide_eq_false ((digitChar_facts d hd).2.2.2.2.2.1)
    have h4 : numberArrayDecode (render0xSpaceSep (b1 :: b2 :: bt2))
        = some (b1 :: b2 :: bt2) := by
      show numberArrayDecode (joinWith (str " ")
        ((b1 :: b2 :: bt2).map (fun b => str "0x" ++ byteHex b))) = _
      refine numberArrayDecode_sep_master
        (numberArrayStripped_join_tok _ _ _ hlen2 h0x_head h0x_last) ?_ ?_
      · apply List.any_eq_true.mpr
        refine ⟨' ', ?_, by decide⟩
        show ' ' ∈ (str "0x" ++ byteHex b1) ++ str " "
          ++ joinWith (str " ") ((b2 :: bt2).map (fun b => str "0x" ++ byteHex b))
        rw [str_space]
        simp
      · rw [splitFilter_space _ h0x_free h0x_ne _ hlen2]
        exact mapMOpt_map_tok _ (fun x hx => numberArrayToken_0x (hb x hx))
    exact ⟨h1, h2, h3, h4, hcont, h0xcont, h0Xcont, hbrcont⟩

/-- Witness for C10: the byte sequence `[5, 171]` in all eight renderings. -/
theorem numberarray_formats_agree_witness :
    numberArrayDecode (renderSpaceSep [5, 171]) = some [5, 171]
    ∧ numberArrayDecode (renderCommaSep [5, 171]) = some [5, 171]
    ∧ numberArrayDecode ('[' :: (renderCommaSep [5, 171] ++ [']'])) = some [5, 171]
    ∧ numberArrayDecode (render0xSpaceSep [5, 171]) = some [5, 171]
    ∧ numberArrayDecode (renderCont [5, 171]) = some [5, 171]
    ∧ numberArrayDecode (str "0x" ++ renderCont [5, 171]) = some [5, 171]
    ∧ numberArrayDecode (str "0X" ++ renderCont [5, 171]) = some [5, 171]
    ∧ numberArrayDecode ('[' :: (renderCont [5, 171] ++ [']'])) = some [5, 171] :=
  numberarray_formats_agree [5, 171] (by decide)

end HidRec
